import Mathlib

/-!
Verification of the training driver `examples/SuperResolution/ODM-ModelNet/train_Direct.py`.

The script is orchestration glue: argument parsing, dataset/loader construction,
model/optimizer instantiation, then a fixed per-epoch train / validate / save loop.
We embed it shallowly: the driver's own control flow, accumulators and checkpoint
logic are translated directly from the source, while the external library calls
(torch, kaolin, the companion `architectures`/`dataloaders`/`utils` modules) are
abstract parameters of an environment structure.

Python semantics that the claims depend on are modelled explicitly:
exceptions propagate but side effects performed before the raise persist
(so the monad's error result still carries the state and the emitted event
trace), `/` and `%` on zero raise `ZeroDivisionError`, `.item()` on a plain
float raises `AttributeError`, and reading an unbound loop variable raises
`NameError`.
-/

/-- Python exception kinds that the embedded script can raise or propagate. -/
inductive PyErr where
  | zeroDivisionError
  | attributeError
  | nameError
  | indexError
  | valueError
  | ioError
  | runtimeError
  deriving DecidableEq, Repr

/-- Checkpoint / log file names used by `Engine.save` (lines 220-234). -/
inductive FName where
  | recentPth
  | recentOptim
  | recentLog
  | bestPth
  | bestOptim
  | bestLog
  deriving DecidableEq, Repr

/-- Mode flag of the torch module: `model.train()` / `model.eval()`. -/
inductive PMode where
  | trainMode
  | evalMode
  deriving DecidableEq, Repr

/-- Marker used to observe the phase pattern of the epoch loop in the event trace. -/
inductive PhaseMark where
  | t
  | v
  | s
  deriving DecidableEq, Repr

/-- Configuration passed to the `ModelNet_ODMS` dataset constructor (lines 57-63). -/
structure DatasetCfg where
  root : String
  categories : List String
  download : Bool
  train : Bool
  deriving DecidableEq, Repr

/-- Configuration passed to the torch `DataLoader` constructor (lines 59-64). -/
structure DataLoaderCfg where
  batch_size : Int
  shuffle : Bool
  num_workers : Nat
  deriving DecidableEq, Repr

/-- The command-line arguments of the script (argparse block, lines 36-48).
All are `type=int` / `type=str` / `type=float` / flags exactly as declared there;
floats are modelled as rationals. -/
structure Args where
  expid : String
  device : String
  categories : List String
  epochs : Int
  batchsize : Int
  lr : ℚ
  val_every : Int
  print_every : Int
  logdir : String
  save_model : Bool
  deriving DecidableEq, Repr

/-- The default values declared by the argparse block (lines 36-47); the
learning-rate default is the float `1e-3`, i.e. the rational 1/1000. -/
def Args.defaults : Args :=
  { expid := "Direct"
    device := "cuda"
    categories := ["chair"]
    epochs := 30
    batchsize := 16
    lr := mkRat 1 1000
    val_every := 5
    print_every := 20
    logdir := "log"
    save_model := false }

/-- The dictionary serialized to `recent.log` / `best.log` (lines 211-218). -/
structure LogTable where
  epoch : Int
  bestval : ℚ
  train_loss : List ℚ
  val_loss : List ℚ
  train_metrics : List String
  val_metrics : List String
  deriving DecidableEq, Repr

/-- Observable operations of a run: constructor calls of the setup section,
torch-module bookkeeping, the per-batch optimizer/autograd calls, and every
file write.  Writes carry enough data to settle the claims (the log table
contents, the dumped arguments). -/
inductive Ev where
  | datasetMake : DatasetCfg → Ev
  | loaderMake : DataLoaderCfg → Ev
  | modelInit : Ev
  | adamInit : ℚ → Ev
  | mkdirEv : String → Ev
  | argsDump : String → Args → Ev
  | modelTrain : Ev
  | modelEval : Ev
  | nogradEnter : Ev
  | nogradExit : Ev
  | zeroGrad : Ev
  | forwardEv : Ev
  | backwardEv : Ev
  | stepEv : Ev
  | ckptWrite : String → FName → Ev
  | logWrite : String → FName → LogTable → Ev
  deriving DecidableEq, Repr

/-- Python value that is either a plain float or a (scalar) tensor; `iou_epoch`
starts as the float literal `0.` (line 150) and becomes a tensor after the
first `+=` of a tensor. -/
inductive PyNum where
  | pfloat : ℚ → PyNum
  | ptensor : ℚ → PyNum
  deriving DecidableEq, Repr

/-- Numeric value held by a `PyNum`. -/
def PyNum.val : PyNum → ℚ
  | .pfloat q => q
  | .ptensor q => q

/-- Python `+` on float/tensor operands: the result is a tensor as soon as one
operand is a tensor. -/
def PyNum.add : PyNum → PyNum → PyNum
  | .pfloat a, .pfloat b => .pfloat (a + b)
  | .pfloat a, .ptensor b => .ptensor (a + b)
  | .ptensor a, .pfloat b => .ptensor (a + b)
  | .ptensor a, .ptensor b => .ptensor (a + b)

/-- Python `.item()`: defined on tensors, an `AttributeError` on a plain float. -/
def PyNum.item : PyNum → Except PyErr ℚ
  | .pfloat _ => .error .attributeError
  | .ptensor q => .ok q

/-- Python float division by an int (`x / num_batches`): raises
`ZeroDivisionError` on a zero divisor. -/
def pydivQ (a : ℚ) (n : Int) : Except PyErr ℚ :=
  if n = 0 then .error .zeroDivisionError else .ok (a / (n : ℚ))

/-- Python `%` on ints (floor-convention remainder): raises `ZeroDivisionError`
on a zero divisor. -/
def pymod (a b : Int) : Except PyErr Int :=
  if b = 0 then .error .zeroDivisionError else .ok (Int.fmod a b)

/-- Python negative indexing `xs[-1]`: last element, `IndexError` when empty. -/
def pyLast (l : List ℚ) : Except PyErr ℚ :=
  match l.getLast? with
  | some x => .ok x
  | none => .error .indexError

/-- Reading a loop variable after the loop: `NameError` when the loop never ran. -/
def getVar (x : Option α) : Except PyErr α :=
  match x with
  | some a => .ok a
  | none => .error .nameError

/-- Modelled from the spec: `np.min` over the accumulated `val_loss` list
(the library routine is external); it raises on an empty array. -/
def npMin (l : List ℚ) : Except PyErr ℚ :=
  match l with
  | [] => .error .valueError
  | x :: xs => .ok (xs.foldl min x)

/-- Python's `os.path.join` for the two-component joins used by the script. -/
def joinPath (a b : String) : String := a ++ "/" ++ b

/-- Result of running a fragment of the script: on both normal return and on an
uncaught exception it carries the final mutable state and the chronological
list of observable events performed before returning / raising. -/
inductive PyResult (C : Type) (α : Type) where
  | ok : α → C → List Ev → PyResult C α
  | err : PyErr → C → List Ev → PyResult C α
  deriving DecidableEq, Repr

/-- Prepend already-performed events to a result's trace. -/
def PyResult.addPre (l : List Ev) : PyResult C α → PyResult C α
  | .ok a c l' => .ok a c (l ++ l')
  | .err e c l' => .err e c (l ++ l')

/-- State-passing computation with Python exception semantics and an event trace. -/
def PyM (C : Type) (α : Type) := C → PyResult C α

/-- Return. -/
def PyM.pure (a : α) : PyM C α := fun c => .ok a c []

/-- Sequencing: on an exception in the first part, the second never runs and
the trace so far is kept. -/
def PyM.bind (x : PyM C α) (f : α → PyM C β) : PyM C β := fun c =>
  match x c with
  | .ok a c₁ l₁ => PyResult.addPre l₁ (f a c₁)
  | .err e c₁ l₁ => .err e c₁ l₁

instance : Monad (PyM C) where
  pure := PyM.pure
  bind := PyM.bind

/-- Record one observable event. -/
def emit (e : Ev) : PyM C Unit := fun c => .ok () c [e]

/-- Record a list of observable events. -/
def emitAll (l : List Ev) : PyM C Unit := fun c => .ok () c l

/-- Run a pure fallible computation (external call or Python primitive). -/
def liftEx (x : Except PyErr α) : PyM C α := fun c =>
  match x with
  | .ok a => .ok a c []
  | .error e => .err e c []

/-- Read the current state. -/
def getC : PyM C C := fun c => .ok c c []

/-- Update the current state. -/
def modifyC (f : C → C) : PyM C Unit := fun c => .ok () (f c) []

/-- The `with torch.no_grad():` block of `validate` (line 149): on normal exit
and on an exception alike, the context manager's exit runs before control
leaves the block. -/
def withNoGrad (body : PyM C α) : PyM C α := fun c =>
  match body c with
  | .ok a c' l => .ok a c' (Ev.nogradEnter :: (l ++ [Ev.nogradExit]))
  | .err e c' l => .err e c' (Ev.nogradEnter :: (l ++ [Ev.nogradExit]))

@[simp] theorem PyM.bind_def (x : PyM C α) (f : α → PyM C β) :
    x >>= f = PyM.bind x f := rfl

@[simp] theorem PyM.pure_def (a : α) : (Pure.pure a : PyM C α) = PyM.pure a := rfl

@[simp] theorem PyM.pure_apply (a : α) (c : C) :
    (PyM.pure a : PyM C α) c = .ok a c [] := rfl

@[simp] theorem emit_apply (e : Ev) (c : C) : emit e c = .ok () c [e] := rfl

@[simp] theorem emitAll_apply (l : List Ev) (c : C) : emitAll l c = .ok () c l := rfl

@[simp] theorem getC_apply (c : C) : (getC : PyM C C) c = .ok c c [] := rfl

@[simp] theorem modifyC_apply (f : C → C) (c : C) : modifyC f c = .ok () (f c) [] := rfl

@[simp] theorem liftEx_ok (a : α) (c : C) :
    (liftEx (.ok a) : PyM C α) c = .ok a c [] := rfl

@[simp] theorem liftEx_err (e : PyErr) (c : C) :
    (liftEx (.error e) : PyM C α) c = .err e c [] := rfl

theorem PyM.bind_apply_ok {x : PyM C α} {f : α → PyM C β} {c : C}
    {a : α} {c₁ : C} {l₁ : List Ev} (hx : x c = .ok a c₁ l₁) :
    PyM.bind x f c = PyResult.addPre l₁ (f a c₁) := by
  unfold PyM.bind; rw [hx]

theorem PyM.bind_apply_err {x : PyM C α} {f : α → PyM C β} {c : C}
    {e : PyErr} {c₁ : C} {l₁ : List Ev} (hx : x c = .err e c₁ l₁) :
    PyM.bind x f c = .err e c₁ l₁ := by
  unfold PyM.bind; rw [hx]

@[simp] theorem PyResult.addPre_ok (l : List Ev) (a : α) (c : C) (l' : List Ev) :
    PyResult.addPre l (.ok a c l') = .ok a c (l ++ l') := rfl

@[simp] theorem PyResult.addPre_err (l : List Ev) (e : PyErr) (c : C) (l' : List Ev) :
    PyResult.addPre l (PyResult.err e c l' : PyResult C α) = .err e c (l ++ l') := rfl

/-- Inversion of a successful sequencing. -/
theorem PyM.bind_eq_ok {x : PyM C α} {f : α → PyM C β} {c : C}
    {b : β} {c₂ : C} {L : List Ev} (h : PyM.bind x f c = .ok b c₂ L) :
    ∃ a c₁ l₁ l₂, x c = .ok a c₁ l₁ ∧ f a c₁ = .ok b c₂ l₂ ∧ L = l₁ ++ l₂ := by
  cases hx : x c with
  | ok a c₁ l₁ =>
    rw [PyM.bind_apply_ok hx] at h
    cases hf : f a c₁ with
    | ok b' c₂' l₂ =>
      rw [hf] at h
      simp only [PyResult.addPre_ok, PyResult.ok.injEq] at h
      exact ⟨a, c₁, l₁, l₂, rfl, by rw [hf, h.1, h.2.1], h.2.2.symm⟩
    | err e c₂' l₂ =>
      rw [hf] at h
      simp at h
  | err e c₁ l₁ =>
    rw [PyM.bind_apply_err hx] at h
    simp at h

/-- Inversion of sequencing that ends in an exception. -/
theorem PyM.bind_eq_err {x : PyM C α} {f : α → PyM C β} {c : C}
    {e : PyErr} {c₂ : C} {L : List Ev} (h : PyM.bind x f c = .err e c₂ L) :
    (x c = .err e c₂ L) ∨
      ∃ a c₁ l₁ l₂, x c = .ok a c₁ l₁ ∧ f a c₁ = .err e c₂ l₂ ∧ L = l₁ ++ l₂ := by
  cases hx : x c with
  | ok a c₁ l₁ =>
    rw [PyM.bind_apply_ok hx] at h
    cases hf : f a c₁ with
    | ok b' c₂' l₂ =>
      rw [hf] at h
      simp at h
    | err e' c₂' l₂ =>
      rw [hf] at h
      simp only [PyResult.addPre_err, PyResult.err.injEq] at h
      exact Or.inr ⟨a, c₁, l₁, l₂, rfl, by rw [hf, h.1, h.2.1], h.2.2.symm⟩
  | err e' c₁ l₁ =>
    rw [PyM.bind_apply_err hx] at h
    injection h with h1 h2 h3
    subst h1
    subst h2
    subst h3
    exact Or.inl rfl

/-- One item yielded by a `DataLoader`: the dict with keys `odms` and `voxels`. -/
structure Batch (T : Type) where
  odms : T
  voxels : T
  deriving DecidableEq, Repr

/-- Modelled from the spec: the external computation environment.  The model
forward/backward pass, occupancy-grid resampling (`down_sample`/`up_sample`),
depth-map extraction and projection (`kal.rep.voxel.extract_odms` /
`project_odms`), the intersection-over-union metric (`kal.metrics.voxel.iou`),
the Adam parameter update and all file I/O are supplied by third-party
libraries absent from this slice, so they are abstract functions over an
abstract tensor type `T` and parameter type `P`; any of them may raise.
The batch lists stand for the sequences the two loaders yield. -/
structure Env (T P : Type) where
  trainBatches : List (Batch T)
  valBatches : List (Batch T)
  toDevice : String → T → Except PyErr T
  down_sample : T → Except PyErr T
  iterBatch : T → List T
  extract_odms : T → Except PyErr T
  unsqueeze0 : T → T
  cat : List T → T
  forward : P → T → Except PyErr T
  mulInt : T → Int → T
  mse : T → T → Except PyErr T
  item : T → ℚ
  backward : T → Except PyErr Unit
  step : P → P
  up_sample : T → Except PyErr T
  contiguous : T → T
  iou : T → T → Except PyErr T
  toIntT : T → T
  project_odms : T → T → Int → Except PyErr T
  torchSave : String → FName → Except PyErr Unit
  writeLog : String → FName → Except PyErr Unit
  writeArgs : String → Except PyErr Unit
  dirExists : String → Bool

/-- The mutable state the script threads through the epoch loop: the `Engine`
attributes (lines 101-105), the model parameters and the module's train/eval
mode flag. -/
structure Core (P : Type) where
  cur_epoch : Int
  train_loss : List ℚ
  val_loss : List ℚ
  bestval : ℚ
  params : P
  mode : PMode
  deriving DecidableEq, Repr

/-- `Engine.__init__` (lines 101-105): stores `cur_epoch` and fresh loss lists
and `bestval = 0`; the `print_every` and `validate_every` parameters are
accepted but never stored.  The model parameters come from the module-level
`upscale(30, 15)` construction. -/
def Engine.init (cur_epoch : Int) (print_every : Int) (validate_every : Int)
    (p : P) : Core P :=
  { cur_epoch := cur_epoch
    train_loss := []
    val_loss := []
    bestval := 0
    params := p
    mode := .trainMode }

/-- The per-voxel loop `for voxel in inp_voxels: inp_odms.append(
kal.rep.voxel.extract_odms(voxel).unsqueeze(0))` (lines 117-119, 162-164). -/
def extractOdmsAll (E : Env T P) : List T → Except PyErr (List T)
  | [] => .ok []
  | v :: vs => do
    let o ← E.extract_odms v
    let rest ← extractOdmsAll E vs
    .ok (E.unsqueeze0 o :: rest)

/-- The projection loop `for odms, voxel_NN in zip(pred_odms, NN_pred):
pred_voxels.append(kal.rep.voxel.project_odms(odms, voxel = voxel_NN,
votes = 2).unsqueeze(0))` (lines 180-182); `zip` stops at the shorter list. -/
def projectAll (E : Env T P) : List T → List T → Except PyErr (List T)
  | o :: os, v :: vs => do
    let p ← E.project_odms o v 2
    let rest ← projectAll E os vs
    .ok (E.unsqueeze0 p :: rest)
  | _, _ => .ok []

/-- The data-creation block shared by `train` and `validate`
(lines 112-120 and 157-165): move `odms` and `voxels` to the device,
down-sample, extract ODMs per voxel and concatenate.  Returns
`(tgt_odms, tgt_voxels, inp_voxels, inp_odms)`. -/
def dataPrep (E : Env T P) (A : Args) (d : Batch T) :
    Except PyErr (T × T × T × T) := do
  let tgt_odms ← E.toDevice A.device d.odms
  let tgt_voxels ← E.toDevice A.device d.voxels
  let inp_voxels ← E.down_sample tgt_voxels
  let odmsL ← extractOdmsAll E (E.iterBatch inp_voxels)
  .ok (tgt_odms, tgt_voxels, inp_voxels, E.cat odmsL)

/-- One iteration of the train loop up to the loss accumulation
(lines 108-129): `zero_grad`, data creation, `pred_odms = model(inp_odms)*30`,
`loss = loss_fn(pred_odms, tgt_odms)`, `loss.backward()`; returns
`float(loss.item())`. -/
def trainBatch (E : Env T P) (A : Args) (d : Batch T) : PyM (Core P) ℚ := do
  emit .zeroGrad
  let r ← liftEx (dataPrep E A d)
  let c ← getC
  let pred0 ← liftEx (E.forward c.params r.2.2.2)
  emit .forwardEv
  let pred_odms := E.mulInt pred0 30
  let loss ← liftEx (E.mse pred_odms r.1)
  liftEx (E.backward loss)
  emit .backwardEv
  PyM.pure (E.item loss)

/-- The train loop (lines 112-137): per batch, accumulate the loss, count the
batch, evaluate the `i % args.print_every` logging guard, then
`optimizer.step()`. -/
def trainLoop (E : Env T P) (A : Args) :
    List (Batch T) → Int → ℚ → Int → PyM (Core P) (ℚ × Int)
  | [], _, acc, nb => PyM.pure (acc, nb)
  | d :: ds, i, acc, nb => do
    let lv ← trainBatch E A d
    let acc' := acc + lv
    let nb' := nb + 1
    let _ ← liftEx (pymod i A.print_every)
    emit .stepEv
    modifyC (fun c => { c with params := E.step c.params })
    trainLoop E A ds (i + 1) acc' nb'

/-- `Engine.train` (lines 107-143): `model.train()`, the train loop, then
`loss_epoch = loss_epoch / num_batches`, `self.train_loss.append(loss_epoch)`
and `self.cur_epoch += 1`. -/
def Engine.train (E : Env T P) (A : Args) : PyM (Core P) Unit := do
  modifyC (fun c => { c with mode := .trainMode })
  emit .modelTrain
  let r ← trainLoop E A E.trainBatches 0 0 0
  let loss_epoch ← liftEx (pydivQ r.1 r.2)
  modifyC (fun c =>
    { c with train_loss := c.train_loss ++ [loss_epoch],
             cur_epoch := c.cur_epoch + 1 })

/-- One iteration of the validation loop (lines 155-186): data creation,
forward pass, `loss = loss_fn(pred_odms, tgt_odms)`, the `up_sample` baseline
and its IoU, projection of the integer ODMs and its IoU; returns the triple
`(float(loss.item()), iou_NN, iou)` of scalar values. -/
def valBatch (E : Env T P) (A : Args) (d : Batch T) : PyM (Core P) (ℚ × ℚ × ℚ) := do
  let r ← liftEx (dataPrep E A d)
  let c ← getC
  let pred0 ← liftEx (E.forward c.params r.2.2.2)
  emit .forwardEv
  let pred_odms := E.mulInt pred0 30
  let loss ← liftEx (E.mse pred_odms r.1)
  let NN_pred ← liftEx (E.up_sample r.2.2.1)
  let iouNN ← liftEx (E.iou (E.contiguous NN_pred) r.2.1)
  let predInt := E.toIntT pred_odms
  let projected ← liftEx (projectAll E (E.iterBatch predInt) (E.iterBatch NN_pred))
  let pred_voxels := E.cat projected
  let iouT ← liftEx (E.iou (E.contiguous pred_voxels) r.2.1)
  PyM.pure (E.item loss, E.item iouNN, E.item iouT)

/-- The in-loop logging branch of `validate` (lines 192-195): it evaluates
`iou_epoch.item() / float(num_batches)` and the `iou_NN` analogue. -/
def valPeek (iouE : PyNum) (iouNNE : PyNum) (nb : Int) : PyM (Core P) Unit := do
  let a ← liftEx iouE.item
  let _ ← liftEx (pydivQ a nb)
  let b ← liftEx iouNNE.item
  let _ ← liftEx (pydivQ b nb)
  PyM.pure ()

/-- The validation loop (lines 155-195), threading the accumulators
`iou_epoch`, `iou_NN_epoch`, `num_batches`, `loss_epoch` and the loop
variable `i` (absent until the first iteration). -/
def valLoop (E : Env T P) (A : Args) :
    List (Batch T) → Int → PyNum → PyNum → Int → ℚ → Option Int →
    PyM (Core P) (PyNum × PyNum × Int × ℚ × Option Int)
  | [], _, iouE, iouNNE, nb, lossE, lastI => PyM.pure (iouE, iouNNE, nb, lossE, lastI)
  | d :: ds, i, iouE, iouNNE, nb, lossE, _ => do
    let t ← valBatch E A d
    let lossE' := lossE + t.1
    let iouNNE' := iouNNE.add (.ptensor t.2.1)
    let iouE' := iouE.add (.ptensor t.2.2)
    let nb' := nb + 1
    let m ← liftEx (pymod i A.print_every)
    if m = 0 then valPeek iouE' iouNNE' nb' else PyM.pure ()
    valLoop E A ds (i + 1) iouE' iouNNE' nb' lossE' (some i)

/-- Body of the `with torch.no_grad():` block of `validate` (lines 149-201):
the loop, then `out_iou = iou_epoch.item() / float(num_batches)` (and the
`iou_NN` analogue), the epoch-summary line that reads the loop variable `i`,
`loss_epoch = loss_epoch / num_batches`, and `self.val_loss.append(out_iou)`. -/
def valBody (E : Env T P) (A : Args) : PyM (Core P) Unit := do
  let r ← valLoop E A E.valBatches 0 (.pfloat 0) (.pfloat 0) 0 0 none
  let a ← liftEx r.1.item
  let out_iou ← liftEx (pydivQ a r.2.2.1)
  let b ← liftEx r.2.1.item
  let _ ← liftEx (pydivQ b r.2.2.1)
  let _ ← liftEx (getVar r.2.2.2.2)
  let _ ← liftEx (pydivQ r.2.2.2.1 r.2.2.1)
  modifyC (fun c => { c with val_loss := c.val_loss ++ [out_iou] })

/-- `Engine.validate` (lines 147-201): `model.eval()`, then the body under
`torch.no_grad()`. -/
def Engine.validate (E : Env T P) (A : Args) : PyM (Core P) Unit := do
  modifyC (fun c => { c with mode := .evalMode })
  emit .modelEval
  withNoGrad (valBody E A)

/-- `Engine.save` (lines 203-236): update `bestval` and the `save_best` flag
from `self.val_loss[-1]`, build the log table (whose `bestval` field is
`np.min(np.asarray(self.val_loss))`), write the recent checkpoint triple,
and, when `save_best`, the best checkpoint triple. -/
def Engine.save (E : Env T P) (A : Args) : PyM (Core P) Unit := do
  let c ← getC
  let last ← liftEx (pyLast c.val_loss)
  let save_best := c.bestval ≤ last
  if save_best then modifyC (fun c' => { c' with bestval := last }) else PyM.pure ()
  let minv ← liftEx (npMin c.val_loss)
  let t : LogTable :=
    { epoch := c.cur_epoch
      bestval := minv
      train_loss := c.train_loss
      val_loss := c.val_loss
      train_metrics := ["NLLLoss", "iou"]
      val_metrics := ["NLLLoss", "iou", "iou_NN"] }
  liftEx (E.torchSave A.logdir .recentPth)
  emit (.ckptWrite A.logdir .recentPth)
  liftEx (E.torchSave A.logdir .recentOptim)
  emit (.ckptWrite A.logdir .recentOptim)
  liftEx (E.writeLog A.logdir .recentLog)
  emit (.logWrite A.logdir .recentLog t)
  if save_best then
    liftEx (E.torchSave A.logdir .bestPth)
    emit (.ckptWrite A.logdir .bestPth)
    liftEx (E.torchSave A.logdir .bestOptim)
    emit (.ckptWrite A.logdir .bestOptim)
    liftEx (E.writeLog A.logdir .bestLog)
    emit (.logWrite A.logdir .bestLog t)
  else PyM.pure ()

/-- The body of the epoch loop (lines 241-243): `trainer.train()`,
`trainer.validate()`, `trainer.save()`. -/
def epochStep (E : Env T P) (A : Args) : PyM (Core P) Unit := do
  Engine.train E A
  Engine.validate E A
  Engine.save E A

/-- The epoch loop `for epoch in range(args.epochs)` (lines 240-243), with the
iteration count already resolved (`range` of a non-positive bound is empty). -/
def epochLoop (E : Env T P) (A : Args) : Nat → PyM (Core P) Unit
  | 0 => PyM.pure ()
  | n + 1 => do
    epochStep E A
    epochLoop E A n

/-- The training dataset construction `ModelNet_ODMS(root='../../datasets/',
categories=args.categories, download=True)` (lines 57-58). -/
def train_set (A : Args) : DatasetCfg :=
  { root := "../../datasets/", categories := A.categories, download := true,
    train := true }

/-- The training loader `DataLoader(train_set, batch_size=args.batchsize,
shuffle=True, num_workers=8)` (lines 59-60). -/
def dataloader_train (A : Args) : DataLoaderCfg :=
  { batch_size := A.batchsize, shuffle := true, num_workers := 8 }

/-- The validation dataset construction (lines 62-63): as `train_set` but with
`train=False`. -/
def valid_set (A : Args) : DatasetCfg :=
  { root := "../../datasets/", categories := A.categories, download := true,
    train := false }

/-- The validation loader `DataLoader(valid_set, batch_size=args.batchsize,
shuffle=False, num_workers=8)` (lines 63-64). -/
def dataloader_val (A : Args) : DataLoaderCfg :=
  { batch_size := A.batchsize, shuffle := false, num_workers := 8 }

/-- The observable constructor calls of the module-level setup section
(lines 56-81): both datasets and loaders, `upscale(30, 15)`, the Adam
optimizer with `lr=args.lr`, and `os.makedirs` when the log directory does
not yet exist. -/
def setupTrace (E : Env T P) (A0 : Args) : List Ev :=
  [.datasetMake (train_set A0), .loaderMake (dataloader_train A0),
   .datasetMake (valid_set A0), .loaderMake (dataloader_val A0),
   .modelInit, .adamInit A0.lr]
  ++ (if E.dirExists (joinPath A0.logdir A0.expid) then []
      else [.mkdirEv (joinPath A0.logdir A0.expid)])

/-- The whole script (lines 36-243): setup, `args.logdir = os.path.join(
args.logdir, args.expid)`, the dump of all arguments to `args.txt`, then the
epoch loop on `trainer = Engine()`. -/
def runScript (E : Env T P) (A0 : Args) : PyM (Core P) Unit := do
  emitAll (setupTrace E A0)
  let A := { A0 with logdir := joinPath A0.logdir A0.expid }
  liftEx (E.writeArgs (joinPath A.logdir ("args.txt")))
  emit (.argsDump (joinPath A.logdir ("args.txt")) A)
  epochLoop E A A.epochs.toNat

/-- File-writing events (checkpoints, logs, the argument dump). -/
def isFileEv : Ev → Bool
  | .ckptWrite _ _ => true
  | .logWrite _ _ _ => true
  | .argsDump _ _ => true
  | _ => false

/-- Checkpoint-file events only (the six files `Engine.save` writes). -/
def isCkptEv : Ev → Bool
  | .ckptWrite _ _ => true
  | .logWrite _ _ _ => true
  | _ => false

/-- Phase marker of an event: the start of `train` (`model.train()`), the
start of `validate` (`model.eval()`), and the completed `recent.pth` write
that occurs exactly once per `save`. -/
def markFn : Ev → Option PhaseMark
  | .modelTrain => some .t
  | .modelEval => some .v
  | .ckptWrite _ f => if f = FName.recentPth then some .s else none
  | _ => none

/-- Maximum of `0` and all elements of a list. -/
def listMax0 (l : List ℚ) : ℚ := l.foldl max 0

@[simp] theorem exceptBind_ok (a : α) (f : α → Except PyErr β) :
    (Except.ok a >>= f : Except PyErr β) = f a := rfl

@[simp] theorem exceptBind_err (e : PyErr) (f : α → Except PyErr β) :
    (Except.error e >>= f : Except PyErr β) = .error e := rfl

/-- The value `float(loss.item())` accumulated by one train-loop iteration,
together with the external calls it requires, as a pure fallible function of
the parameters and the batch (mirrors lines 112-126). -/
def batchLoss (E : Env T P) (A : Args) (p : P) (d : Batch T) : Except PyErr ℚ := do
  let r ← dataPrep E A d
  let pred0 ← E.forward p r.2.2.2
  let loss ← E.mse (E.mulInt pred0 30) r.1
  let _ ← E.backward loss
  .ok (E.item loss)

/-- The sequence of per-batch train losses (and the final parameters) produced
by the train loop, threading the `optimizer.step()` parameter update and the
`i % args.print_every` guard evaluation. -/
def lossesFrom (E : Env T P) (A : Args) :
    P → Int → List (Batch T) → Except PyErr (List ℚ × P)
  | p, _, [] => .ok ([], p)
  | p, i, d :: ds => do
    let q ← batchLoss E A p d
    let _ ← pymod i A.print_every
    let r ← lossesFrom E A (E.step p) (i + 1) ds
    .ok (q :: r.1, r.2)

/-- The triple `(float(loss.item()), iou_NN value, iou value)` of one
validation-loop iteration as a pure fallible function (mirrors lines 157-186). -/
def specValBatch (E : Env T P) (A : Args) (p : P) (d : Batch T) :
    Except PyErr (ℚ × ℚ × ℚ) := do
  let r ← dataPrep E A d
  let pred0 ← E.forward p r.2.2.2
  let loss ← E.mse (E.mulInt pred0 30) r.1
  let NN_pred ← E.up_sample r.2.2.1
  let iouNN ← E.iou (E.contiguous NN_pred) r.2.1
  let projected ← projectAll E (E.iterBatch (E.toIntT (E.mulInt pred0 30)))
      (E.iterBatch NN_pred)
  let iouT ← E.iou (E.contiguous (E.cat projected)) r.2.1
  .ok (E.item loss, E.item iouNN, E.item iouT)

/-- The per-batch validation triples produced by the validation loop. -/
def iousFrom (E : Env T P) (A : Args) (p : P) :
    Int → List (Batch T) → Except PyErr (List (ℚ × ℚ × ℚ))
  | _, [] => .ok []
  | i, d :: ds => do
    let t ← specValBatch E A p d
    let _ ← pymod i A.print_every
    let ts ← iousFrom E A p (i + 1) ds
    .ok (t :: ts)

/-- Final value of the loop variable `i` after iterating from index `i₀`. -/
def lastIdx (i : Int) : List β → Option Int → Option Int
  | [], li => li
  | _ :: ds, _ => lastIdx (i + 1) ds (some i)

/-- Events emitted by a successful train loop: the per-batch
`zero_grad` / forward / backward / `step` pattern. -/
def trainEvs : List (Batch T) → List Ev
  | [] => []
  | _ :: ds => [Ev.zeroGrad, .forwardEv, .backwardEv, .stepEv] ++ trainEvs ds

/-- Events emitted by a successful validation loop: one forward pass per batch. -/
def valEvs : List (Batch T) → List Ev
  | [] => []
  | _ :: ds => Ev.forwardEv :: valEvs ds

theorem trainBatch_ok {E : Env T P} {A : Args} {d : Batch T} {c : Core P} {q : ℚ}
    (h : batchLoss E A c.params d = .ok q) :
    trainBatch E A d c = .ok q c [.zeroGrad, .forwardEv, .backwardEv] := by
  unfold batchLoss at h
  cases h1 : dataPrep E A d with
  | error e => rw [h1] at h; simp at h
  | ok r =>
    rw [h1] at h
    simp only [exceptBind_ok] at h
    cases h2 : E.forward c.params r.2.2.2 with
    | error e => rw [h2] at h; simp at h
    | ok pred0 =>
      rw [h2] at h
      simp only [exceptBind_ok] at h
      cases h3 : E.mse (E.mulInt pred0 30) r.1 with
      | error e => rw [h3] at h; simp at h
      | ok loss =>
        rw [h3] at h
        simp only [exceptBind_ok] at h
        cases h4 : E.backward loss with
        | error e => rw [h4] at h; simp at h
        | ok u =>
          rw [h4] at h
          simp only [exceptBind_ok, Except.ok.injEq] at h
          subst h
          simp [trainBatch, PyM.bind_def, PyM.bind, emit, liftEx, getC,
            PyM.pure, h1, h2, h3, h4, PyResult.addPre]

theorem trainBatch_err {E : Env T P} {A : Args} {d : Batch T} {c : Core P} {e : PyErr}
    (h : batchLoss E A c.params d = .error e) :
    ∃ evs, trainBatch E A d c = .err e c evs ∧ evs.filter isFileEv = [] := by
  unfold batchLoss at h
  cases h1 : dataPrep E A d with
  | error e' =>
    rw [h1] at h
    simp only [exceptBind_err, Except.error.injEq] at h
    subst h
    exact ⟨[.zeroGrad], by
      simp [trainBatch, PyM.bind_def, PyM.bind, emit, liftEx, getC,
        PyM.pure, h1, PyResult.addPre], rfl⟩
  | ok r =>
    rw [h1] at h
    simp only [exceptBind_ok] at h
    cases h2 : E.forward c.params r.2.2.2 with
    | error e' =>
      rw [h2] at h
      simp only [exceptBind_err, Except.error.injEq] at h
      subst h
      exact ⟨[.zeroGrad], by
        simp [trainBatch, PyM.bind_def, PyM.bind, emit, liftEx, getC,
          PyM.pure, h1, h2, PyResult.addPre], rfl⟩
    | ok pred0 =>
      rw [h2] at h
      simp only [exceptBind_ok] at h
      cases h3 : E.mse (E.mulInt pred0 30) r.1 with
      | error e' =>
        rw [h3] at h
        simp only [exceptBind_err, Except.error.injEq] at h
        subst h
        exact ⟨[.zeroGrad, .forwardEv], by
          simp [trainBatch, PyM.bind_def, PyM.bind, emit, liftEx, getC,
            PyM.pure, h1, h2, h3, PyResult.addPre], rfl⟩
      | ok loss =>
        rw [h3] at h
        simp only [exceptBind_ok] at h
        cases h4 : E.backward loss with
        | error e' =>
          rw [h4] at h
          simp only [exceptBind_err, Except.error.injEq] at h
          subst h
          exact ⟨[.zeroGrad, .forwardEv], by
            simp [trainBatch, PyM.bind_def, PyM.bind, emit, liftEx, getC,
              PyM.pure, h1, h2, h3, h4, PyResult.addPre], rfl⟩
        | ok u =>
          rw [h4] at h
          simp at h

theorem trainLoop_ok {E : Env T P} {A : Args} :
    ∀ (l : List (Batch T)) (i : Int) (acc : ℚ) (nb : Int) (c : Core P)
      (ls : List ℚ) (p' : P),
      lossesFrom E A c.params i l = .ok (ls, p') →
      trainLoop E A l i acc nb c =
        .ok (acc + ls.sum, nb + ls.length) { c with params := p' } (trainEvs l) := by
  intro l
  induction l with
  | nil =>
    intro i acc nb c ls p' h
    unfold lossesFrom at h
    simp only [Except.ok.injEq, Prod.mk.injEq] at h
    obtain ⟨h1, h2⟩ := h
    subst h1
    subst h2
    simp [trainLoop, PyM.pure, trainEvs]
  | cons d ds ih =>
    intro i acc nb c ls p' h
    unfold lossesFrom at h
    cases h1 : batchLoss E A c.params d with
    | error e => rw [h1] at h; simp at h
    | ok q =>
      rw [h1] at h
      simp only [exceptBind_ok] at h
      cases h2 : pymod i A.print_every with
      | error e => rw [h2] at h; simp at h
      | ok m =>
        rw [h2] at h
        simp only [exceptBind_ok] at h
        cases h3 : lossesFrom E A (E.step c.params) (i + 1) ds with
        | error e => rw [h3] at h; simp at h
        | ok r2 =>
          obtain ⟨qs, p2⟩ := r2
          rw [h3] at h
          simp only [exceptBind_ok, Except.ok.injEq, Prod.mk.injEq] at h
          obtain ⟨hls, hp⟩ := h
          subst hls
          subst hp
          have hb := trainBatch_ok (c := c) h1
          have hrec := ih (i + 1) (acc + q) (nb + 1)
            { c with params := E.step c.params } qs p2 h3
          simp only [trainLoop, PyM.bind_def, PyM.bind, hb, liftEx, h2,
            emit_apply, modifyC_apply, PyM.pure, PyResult.addPre, hrec,
            trainEvs, List.sum_cons, List.length_cons, List.append_assoc,
            List.nil_append, List.append_nil, List.cons_append,
            PyResult.ok.injEq, Prod.mk.injEq, List.singleton_append]
          refine ⟨⟨by ring, by push_cast; ring⟩, trivial, trivial⟩

theorem trainLoop_err {E : Env T P} {A : Args} :
    ∀ (l : List (Batch T)) (i : Int) (acc : ℚ) (nb : Int) (c : Core P) (e : PyErr),
      lossesFrom E A c.params i l = .error e →
      ∃ (p'' : P) (evs : List Ev),
        trainLoop E A l i acc nb c = .err e { c with params := p'' } evs ∧
          evs.filter isFileEv = [] := by
  intro l
  induction l with
  | nil =>
    intro i acc nb c e h
    unfold lossesFrom at h
    simp at h
  | cons d ds ih =>
    intro i acc nb c e h
    unfold lossesFrom at h
    cases h1 : batchLoss E A c.params d with
    | error e' =>
      rw [h1] at h
      simp only [exceptBind_err, Except.error.injEq] at h
      subst h
      obtain ⟨evs, hb, hf⟩ := trainBatch_err (c := c) h1
      refine ⟨c.params, evs, ?_, hf⟩
      simp only [trainLoop, PyM.bind_def, PyM.bind, hb]
    | ok q =>
      rw [h1] at h
      simp only [exceptBind_ok] at h
      have hb := trainBatch_ok (c := c) h1
      cases h2 : pymod i A.print_every with
      | error e' =>
        rw [h2] at h
        simp only [exceptBind_err, Except.error.injEq] at h
        subst h
        refine ⟨c.params, [.zeroGrad, .forwardEv, .backwardEv], ?_, rfl⟩
        simp only [trainLoop, PyM.bind_def, PyM.bind, hb, liftEx, h2,
          PyResult.addPre, List.append_nil]
      | ok m =>
        rw [h2] at h
        simp only [exceptBind_ok] at h
        cases h3 : lossesFrom E A (E.step c.params) (i + 1) ds with
        | error e' =>
          rw [h3] at h
          simp only [exceptBind_err, Except.error.injEq] at h
          subst h
          obtain ⟨p'', evs, hr, hf⟩ :=
            ih (i + 1) (acc + q) (nb + 1) { c with params := E.step c.params } e' h3
          refine ⟨p'', [Ev.zeroGrad, .forwardEv, .backwardEv, .stepEv] ++ evs, ?_, ?_⟩
          · simp only [trainLoop, PyM.bind_def, PyM.bind, hb, liftEx, h2,
              emit_apply, modifyC_apply, PyResult.addPre, hr,
              List.append_assoc, List.nil_append, List.append_nil,
              List.cons_append, List.singleton_append]
          · simp [List.filter_append, hf, isFileEv]
        | ok r2 =>
          rw [h3] at h
          simp at h

theorem lossesFrom_length {E : Env T P} {A : Args} :
    ∀ (l : List (Batch T)) (p : P) (i : Int) (ls : List ℚ) (p' : P),
      lossesFrom E A p i l = .ok (ls, p') → ls.length = l.length := by
  intro l
  induction l with
  | nil =>
    intro p i ls p' h
    unfold lossesFrom at h
    simp only [Except.ok.injEq, Prod.mk.injEq] at h
    rw [← h.1]
    rfl
  | cons d ds ih =>
    intro p i ls p' h
    unfold lossesFrom at h
    cases h1 : batchLoss E A p d with
    | error e => rw [h1] at h; simp at h
    | ok q =>
      rw [h1] at h
      simp only [exceptBind_ok] at h
      cases h2 : pymod i A.print_every with
      | error e => rw [h2] at h; simp at h
      | ok m =>
        rw [h2] at h
        simp only [exceptBind_ok] at h
        cases h3 : lossesFrom E A (E.step p) (i + 1) ds with
        | error e => rw [h3] at h; simp at h
        | ok r2 =>
          rw [h3] at h
          simp only [exceptBind_ok, Except.ok.injEq, Prod.mk.injEq] at h
          rw [← h.1]
          simp [ih (E.step p) (i + 1) r2.1 r2.2 (by rw [h3])]

/-- The state produced by a successful `Engine.train` from state `c`. -/
def postTrain (c : Core P) (ls : List ℚ) (p' : P) : Core P :=
  { cur_epoch := c.cur_epoch + 1
    train_loss := c.train_loss ++ [ls.sum / (ls.length : ℚ)]
    val_loss := c.val_loss
    bestval := c.bestval
    params := p'
    mode := .trainMode }

theorem train_ok_char {E : Env T P} {A : Args} {c : Core P} {ls : List ℚ} {p' : P}
    (hne : ls ≠ [])
    (h : lossesFrom E A c.params 0 E.trainBatches = .ok (ls, p')) :
    Engine.train E A c =
      .ok () (postTrain c ls p') (Ev.modelTrain :: trainEvs E.trainBatches) := by
  have hl := trainLoop_ok E.trainBatches 0 0 0
    { c with mode := PMode.trainMode } ls p' h
  have hlen : ((ls.length : Int) ≠ 0) := by
    simp only [ne_eq, Int.natCast_eq_zero, List.length_eq_zero]
    exact hne
  have hd : pydivQ (0 + ls.sum) (0 + (ls.length : Int)) =
      .ok (ls.sum / (ls.length : ℚ)) := by
    rw [zero_add, zero_add, pydivQ, if_neg hlen]
    norm_num
  simp only [Engine.train, PyM.bind_def, PyM.bind, modifyC_apply, emit_apply,
    hl, liftEx, hd, PyResult.addPre, postTrain, List.append_assoc,
    List.nil_append, List.append_nil, List.cons_append, List.singleton_append]

theorem train_err_char {E : Env T P} {A : Args} {c : Core P} {e : PyErr}
    (h : lossesFrom E A c.params 0 E.trainBatches = .error e) :
    ∃ (p'' : P) (evs : List Ev),
      Engine.train E A c =
        .err e { c with mode := .trainMode, params := p'' } (Ev.modelTrain :: evs) ∧
        evs.filter isFileEv = [] := by
  obtain ⟨p'', evs, hr, hf⟩ := trainLoop_err E.trainBatches 0 0 0
    { c with mode := PMode.trainMode } e h
  refine ⟨p'', evs, ?_, hf⟩
  simp only [Engine.train, PyM.bind_def, PyM.bind, modifyC_apply, emit_apply,
    hr, PyResult.addPre, List.append_assoc, List.nil_append, List.append_nil,
    List.cons_append, List.singleton_append]

theorem train_nil_char {E : Env T P} {A : Args} {c : Core P}
    (h : E.trainBatches = []) :
    Engine.train E A c =
      .err .zeroDivisionError { c with mode := .trainMode } [Ev.modelTrain] := by
  have hl := trainLoop_ok (E := E) (A := A) [] 0 0 0
    { c with mode := PMode.trainMode } [] c.params (by unfold lossesFrom; rfl)
  rw [Engine.train, h]
  simp only [PyM.bind_def, PyM.bind, modifyC_apply, emit_apply, hl, liftEx,
    PyResult.addPre, List.append_assoc, List.nil_append, List.append_nil]
  norm_num [pydivQ, trainEvs]

theorem train_ok_inv {E : Env T P} {A : Args} {c c' : Core P} {u : Unit}
    {evs : List Ev} (h : Engine.train E A c = .ok u c' evs) :
    ∃ ls p', lossesFrom E A c.params 0 E.trainBatches = .ok (ls, p') ∧ ls ≠ [] ∧
      c' = postTrain c ls p' ∧ evs = Ev.modelTrain :: trainEvs E.trainBatches := by
  cases hs : lossesFrom E A c.params 0 E.trainBatches with
  | error e =>
    obtain ⟨p'', evs', hr, hf⟩ := train_err_char hs
    rw [hr] at h
    exact absurd h (by simp)
  | ok r =>
    obtain ⟨ls, p'⟩ := r
    by_cases hne : ls = []
    · subst hne
      have hlen := lossesFrom_length E.trainBatches c.params 0 [] p' hs
      have hbn : E.trainBatches = [] := by
        cases hb : E.trainBatches with
        | nil => rfl
        | cons x xs => rw [hb] at hlen; simp at hlen
      rw [train_nil_char hbn] at h
      exact absurd h (by simp)
    · have hc := train_ok_char hne hs
      rw [hc] at h
      injection h with h1 h2 h3
      exact ⟨ls, p', rfl, hne, h2.symm, h3.symm⟩

theorem train_err_inv {E : Env T P} {A : Args} {c c' : Core P} {e : PyErr}
    {evs : List Ev} (h : Engine.train E A c = .err e c' evs) :
    c'.train_loss = c.train_loss ∧ c'.val_loss = c.val_loss ∧
      c'.bestval = c.bestval ∧ c'.cur_epoch = c.cur_epoch ∧
      evs.filter isFileEv = [] := by
  cases hs : lossesFrom E A c.params 0 E.trainBatches with
  | error e2 =>
    obtain ⟨p'', evs', hr, hf⟩ := train_err_char hs
    rw [hr] at h
    injection h with h1 h2 h3
    refine ⟨by rw [← h2], by rw [← h2], by rw [← h2], by rw [← h2], ?_⟩
    rw [← h3]
    simp [List.filter, isFileEv, hf]
  | ok r =>
    obtain ⟨ls, p'⟩ := r
    by_cases hne : ls = []
    · subst hne
      have hlen := lossesFrom_length E.trainBatches c.params 0 [] p' hs
      have hbn : E.trainBatches = [] := by
        cases hb : E.trainBatches with
        | nil => rfl
        | cons x xs => rw [hb] at hlen; simp at hlen
      rw [train_nil_char hbn] at h
      injection h with h1 h2 h3
      refine ⟨by rw [← h2], by rw [← h2], by rw [← h2], by rw [← h2], ?_⟩
      rw [← h3]
      simp [List.filter, isFileEv]
    · have hc := train_ok_char hne hs
      rw [hc] at h
      exact absurd h (by simp)

/-- Folding `+=` of scalar-tensor IoU values into the `iou_epoch` accumulator. -/
def accIou (x : PyNum) (qs : List ℚ) : PyNum :=
  qs.foldl (fun a q => a.add (.ptensor q)) x

@[simp] theorem accIou_nil (x : PyNum) : accIou x [] = x := rfl

theorem accIou_cons (x : PyNum) (q : ℚ) (qs : List ℚ) :
    accIou x (q :: qs) = accIou (x.add (.ptensor q)) qs := rfl

theorem accIou_ptensor (v : ℚ) : ∀ qs : List ℚ,
    accIou (.ptensor v) qs = .ptensor (v + qs.sum) := by
  intro qs
  induction qs generalizing v with
  | nil => simp
  | cons q qs ih =>
    rw [accIou_cons]
    show accIou (.ptensor (v + q)) qs = _
    rw [ih]
    simp only [List.sum_cons]
    ring_nf

theorem accIou_pfloat_zero {qs : List ℚ} (h : qs ≠ []) :
    accIou (.pfloat 0) qs = .ptensor qs.sum := by
  cases qs with
  | nil => exact absurd rfl h
  | cons q qs =>
    rw [accIou_cons]
    show accIou (.ptensor (0 + q)) qs = _
    rw [accIou_ptensor]
    simp only [List.sum_cons]
    ring_nf

theorem valPeek_run {P : Type} {a b : ℚ} {nb : Int} {c : Core P} (h : nb ≠ 0) :
    valPeek (.ptensor a) (.ptensor b) nb c = .ok () c [] := by
  simp [valPeek, PyM.bind_def, PyM.bind, liftEx, PyNum.item, pydivQ, if_neg h,
    PyM.pure, PyResult.addPre]

theorem valBatch_ok {E : Env T P} {A : Args} {d : Batch T} {c : Core P}
    {t : ℚ × ℚ × ℚ} (h : specValBatch E A c.params d = .ok t) :
    valBatch E A d c = .ok t c [Ev.forwardEv] := by
  unfold specValBatch at h
  cases h1 : dataPrep E A d with
  | error e => rw [h1] at h; simp at h
  | ok r =>
    rw [h1] at h
    simp only [exceptBind_ok] at h
    cases h2 : E.forward c.params r.2.2.2 with
    | error e => rw [h2] at h; simp at h
    | ok pred0 =>
      rw [h2] at h
      simp only [exceptBind_ok] at h
      cases h3 : E.mse (E.mulInt pred0 30) r.1 with
      | error e => rw [h3] at h; simp at h
      | ok loss =>
        rw [h3] at h
        simp only [exceptBind_ok] at h
        cases h4 : E.up_sample r.2.2.1 with
        | error e => rw [h4] at h; simp at h
        | ok NN_pred =>
          rw [h4] at h
          simp only [exceptBind_ok] at h
          cases h5 : E.iou (E.contiguous NN_pred) r.2.1 with
          | error e => rw [h5] at h; simp at h
          | ok iouNN =>
            rw [h5] at h
            simp only [exceptBind_ok] at h
            cases h6 : projectAll E (E.iterBatch (E.toIntT (E.mulInt pred0 30)))
                (E.iterBatch NN_pred) with
            | error e => rw [h6] at h; simp at h
            | ok projected =>
              rw [h6] at h
              simp only [exceptBind_ok] at h
              cases h7 : E.iou (E.contiguous (E.cat projected)) r.2.1 with
              | error e => rw [h7] at h; simp at h
              | ok iouT =>
                rw [h7] at h
                simp only [exceptBind_ok, Except.ok.injEq] at h
                subst h
                simp [valBatch, PyM.bind_def, PyM.bind, emit, liftEx, getC,
                  PyM.pure, h1, h2, h3, h4, h5, h6, h7, PyResult.addPre]

theorem valBatch_err {E : Env T P} {A : Args} {d : Batch T} {c : Core P}
    {e : PyErr} (h : specValBatch E A c.params d = .error e) :
    ∃ evs, valBatch E A d c = .err e c evs ∧ evs.filter isFileEv = [] := by
  unfold specValBatch at h
  cases h1 : dataPrep E A d with
  | error e' =>
    rw [h1] at h
    simp only [exceptBind_err, Except.error.injEq] at h
    subst h
    exact ⟨[], by
      simp [valBatch, PyM.bind_def, PyM.bind, emit, liftEx, getC, PyM.pure,
        h1, PyResult.addPre], rfl⟩
  | ok r =>
    rw [h1] at h
    simp only [exceptBind_ok] at h
    cases h2 : E.forward c.params r.2.2.2 with
    | error e' =>
      rw [h2] at h
      simp only [exceptBind_err, Except.error.injEq] at h
      subst h
      exact ⟨[], by
        simp [valBatch, PyM.bind_def, PyM.bind, emit, liftEx, getC, PyM.pure,
          h1, h2, PyResult.addPre], rfl⟩
    | ok pred0 =>
      rw [h2] at h
      simp only [exceptBind_ok] at h
      cases h3 : E.mse (E.mulInt pred0 30) r.1 with
      | error e' =>
        rw [h3] at h
        simp only [exceptBind_err, Except.error.injEq] at h
        subst h
        exact ⟨[Ev.forwardEv], by
          simp [valBatch, PyM.bind_def, PyM.bind, emit, liftEx, getC, PyM.pure,
            h1, h2, h3, PyResult.addPre], rfl⟩
      | ok loss =>
        rw [h3] at h
        simp only [exceptBind_ok] at h
        cases h4 : E.up_sample r.2.2.1 with
        | error e' =>
          rw [h4] at h
          simp only [exceptBind_err, Except.error.injEq] at h
          subst h
          exact ⟨[Ev.forwardEv], by
            simp [valBatch, PyM.bind_def, PyM.bind, emit, liftEx, getC, PyM.pure,
              h1, h2, h3, h4, PyResult.addPre], rfl⟩
        | ok NN_pred =>
          rw [h4] at h
          simp only [exceptBind_ok] at h
          cases h5 : E.iou (E.contiguous NN_pred) r.2.1 with
          | error e' =>
            rw [h5] at h
            simp only [exceptBind_err, Except.error.injEq] at h
            subst h
            exact ⟨[Ev.forwardEv], by
              simp [valBatch, PyM.bind_def, PyM.bind, emit, liftEx, getC, PyM.pure,
                h1, h2, h3, h4, h5, PyResult.addPre], rfl⟩
          | ok iouNN =>
            rw [h5] at h
            simp only [exceptBind_ok] at h
            cases h6 : projectAll E (E.iterBatch (E.toIntT (E.mulInt pred0 30)))
                (E.iterBatch NN_pred) with
            | error e' =>
              rw [h6] at h
              simp only [exceptBind_err, Except.error.injEq] at h
              subst h
              exact ⟨[Ev.forwardEv], by
                simp [valBatch, PyM.bind_def, PyM.bind, emit, liftEx, getC, PyM.pure,
                  h1, h2, h3, h4, h5, h6, PyResult.addPre], rfl⟩
            | ok projected =>
              rw [h6] at h
              simp only [exceptBind_ok] at h
              cases h7 : E.iou (E.contiguous (E.cat projected)) r.2.1 with
              | error e' =>
                rw [h7] at h
                simp only [exceptBind_err, Except.error.injEq] at h
                subst h
                exact ⟨[Ev.forwardEv], by
                  simp [valBatch, PyM.bind_def, PyM.bind, emit, liftEx, getC, PyM.pure,
                    h1, h2, h3, h4, h5, h6, h7, PyResult.addPre], rfl⟩
              | ok iouT =>
                rw [h7] at h
                simp at h

theorem iousFrom_length {E : Env T P} {A : Args} {p : P} :
    ∀ (l : List (Batch T)) (i : Int) (ts : List (ℚ × ℚ × ℚ)),
      iousFrom E A p i l = .ok ts → ts.length = l.length := by
  intro l
  induction l with
  | nil =>
    intro i ts h
    unfold iousFrom at h
    simp only [Except.ok.injEq] at h
    rw [← h]
    rfl
  | cons d ds ih =>
    intro i ts h
    unfold iousFrom at h
    cases h1 : specValBatch E A p d with
    | error e => rw [h1] at h; simp at h
    | ok t =>
      rw [h1] at h
      simp only [exceptBind_ok] at h
      cases h2 : pymod i A.print_every with
      | error e => rw [h2] at h; simp at h
      | ok m =>
        rw [h2] at h
        simp only [exceptBind_ok] at h
        cases h3 : iousFrom E A p (i + 1) ds with
        | error e => rw [h3] at h; simp at h
        | ok ts' =>
          rw [h3] at h
          simp only [exceptBind_ok, Except.ok.injEq] at h
          rw [← h]
          simp [ih (i + 1) ts' (by rw [h3])]

theorem valLoop_ok {E : Env T P} {A : Args} :
    ∀ (l : List (Batch T)) (i : Int) (iouE iouNNE : PyNum) (nb : Int)
      (lossE : ℚ) (lastI : Option Int) (c : Core P) (ts : List (ℚ × ℚ × ℚ)),
      iousFrom E A c.params i l = .ok ts → 0 ≤ nb →
      valLoop E A l i iouE iouNNE nb lossE lastI c =
        .ok (accIou iouE (ts.map fun t => t.2.2),
             accIou iouNNE (ts.map fun t => t.2.1),
             nb + ts.length,
             lossE + (ts.map fun t => t.1).sum,
             lastIdx i l lastI) c (valEvs l) := by
  intro l
  induction l with
  | nil =>
    intro i iouE iouNNE nb lossE lastI c ts h hnb
    unfold iousFrom at h
    simp only [Except.ok.injEq] at h
    subst h
    simp [valLoop, PyM.pure, valEvs, lastIdx]
  | cons d ds ih =>
    intro i iouE iouNNE nb lossE lastI c ts h hnb
    unfold iousFrom at h
    cases h1 : specValBatch E A c.params d with
    | error e => rw [h1] at h; simp at h
    | ok t =>
      rw [h1] at h
      simp only [exceptBind_ok] at h
      cases h2 : pymod i A.print_every with
      | error e => rw [h2] at h; simp at h
      | ok m =>
        rw [h2] at h
        simp only [exceptBind_ok] at h
        cases h3 : iousFrom E A c.params (i + 1) ds with
        | error e => rw [h3] at h; simp at h
        | ok ts' =>
          rw [h3] at h
          simp only [exceptBind_ok, Except.ok.injEq] at h
          subst h
          have hb := valBatch_ok (c := c) h1
          have hnb1 : nb + 1 ≠ 0 := by omega
          have hrec := ih (i + 1) (iouE.add (.ptensor t.2.2))
            (iouNNE.add (.ptensor t.2.1)) (nb + 1) (lossE + t.1) (some i) c ts'
            h3 (by omega)
          have hpk : valPeek (iouE.add (.ptensor t.2.2))
              (iouNNE.add (.ptensor t.2.1)) (nb + 1) c = .ok () c [] := by
            cases iouE <;> cases iouNNE <;> exact valPeek_run hnb1
          by_cases hm : m = 0
          · simp only [valLoop, PyM.bind_def, PyM.bind, hb, liftEx, h2,
              if_pos hm, hpk, PyM.pure, PyResult.addPre, hrec, List.map_cons,
              List.sum_cons, List.length_cons, valEvs, lastIdx,
              List.nil_append, List.append_nil, List.cons_append,
              List.singleton_append, accIou_cons, PyResult.ok.injEq,
              Prod.mk.injEq]
            refine ⟨⟨trivial, trivial, by push_cast; ring, by ring, trivial⟩,
              trivial, trivial⟩
          · simp only [valLoop, PyM.bind_def, PyM.bind, hb, liftEx, h2,
              if_neg hm, PyM.pure, PyResult.addPre, hrec, List.map_cons,
              List.sum_cons, List.length_cons, valEvs, lastIdx,
              List.nil_append, List.append_nil, List.cons_append,
              List.singleton_append, accIou_cons, PyResult.ok.injEq,
              Prod.mk.injEq]
            refine ⟨⟨trivial, trivial, by push_cast; ring, by ring, trivial⟩,
              trivial, trivial⟩

theorem valLoop_err {E : Env T P} {A : Args} :
    ∀ (l : List (Batch T)) (i : Int) (iouE iouNNE : PyNum) (nb : Int)
      (lossE : ℚ) (lastI : Option Int) (c : Core P) (e : PyErr),
      iousFrom E A c.params i l = .error e → 0 ≤ nb →
      ∃ evs, valLoop E A l i iouE iouNNE nb lossE lastI c = .err e c evs ∧
        evs.filter isFileEv = [] := by
  intro l
  induction l with
  | nil =>
    intro i iouE iouNNE nb lossE lastI c e h hnb
    unfold iousFrom at h
    simp at h
  | cons d ds ih =>
    intro i iouE iouNNE nb lossE lastI c e h hnb
    unfold iousFrom at h
    cases h1 : specValBatch E A c.params d with
    | error e' =>
      rw [h1] at h
      simp only [exceptBind_err, Except.error.injEq] at h
      subst h
      obtain ⟨evs, hbe, hf⟩ := valBatch_err (c := c) h1
      refine ⟨evs, ?_, hf⟩
      simp only [valLoop, PyM.bind_def, PyM.bind, hbe]
    | ok t =>
      rw [h1] at h
      simp only [exceptBind_ok] at h
      have hb := valBatch_ok (c := c) h1
      cases h2 : pymod i A.print_every with
      | error e' =>
        rw [h2] at h
        simp only [exceptBind_err, Except.error.injEq] at h
        subst h
        refine ⟨[Ev.forwardEv], ?_, rfl⟩
        simp only [valLoop, PyM.bind_def, PyM.bind, hb, liftEx, h2,
          PyResult.addPre, List.append_nil]
      | ok m =>
        rw [h2] at h
        simp only [exceptBind_ok] at h
        cases h3 : iousFrom E A c.params (i + 1) ds with
        | error e' =>
          rw [h3] at h
          simp only [exceptBind_err, Except.error.injEq] at h
          subst h
          have hnb1 : nb + 1 ≠ 0 := by omega
          have hpk : valPeek (iouE.add (.ptensor t.2.2))
              (iouNNE.add (.ptensor t.2.1)) (nb + 1) c = .ok () c [] := by
            cases iouE <;> cases iouNNE <;> exact valPeek_run hnb1
          obtain ⟨evs, hr, hf⟩ := ih (i + 1) (iouE.add (.ptensor t.2.2))
            (iouNNE.add (.ptensor t.2.1)) (nb + 1) (lossE + t.1) (some i) c e'
            h3 (by omega)
          refine ⟨Ev.forwardEv :: evs, ?_, ?_⟩
          · by_cases hm : m = 0
            · simp only [valLoop, PyM.bind_def, PyM.bind, hb, liftEx, h2,
                if_pos hm, hpk, PyM.pure, PyResult.addPre, hr,
                List.nil_append, List.append_nil, List.cons_append,
                List.singleton_append]
            · simp only [valLoop, PyM.bind_def, PyM.bind, hb, liftEx, h2,
                if_neg hm, PyM.pure, PyResult.addPre, hr,
                List.nil_append, List.append_nil, List.cons_append,
                List.singleton_append]
          · simp [List.filter, isFileEv, hf]
        | ok ts' =>
          rw [h3] at h
          simp at h

theorem lastIdx_isSome {β : Type} :
    ∀ (l : List β) (i : Int) (li : Option Int), l ≠ [] →
      ∃ j, lastIdx i l li = some j := by
  intro l
  induction l with
  | nil => intro i li h; exact absurd rfl h
  | cons d ds ih =>
    intro i li h
    cases hd : ds with
    | nil => exact ⟨i, rfl⟩
    | cons x xs =>
      obtain ⟨j, hj⟩ := ih (i + 1) (some i) (by rw [hd]; simp)
      rw [hd] at hj
      exact ⟨j, by rw [lastIdx]; exact hj⟩

/-- The state produced by a successful `Engine.validate` from state `c`. -/
def postVal (c : Core P) (out : ℚ) : Core P :=
  { cur_epoch := c.cur_epoch
    train_loss := c.train_loss
    val_loss := c.val_loss ++ [out]
    bestval := c.bestval
    params := c.params
    mode := .evalMode }

theorem valBody_ok {E : Env T P} {A : Args} {c : Core P} {ts : List (ℚ × ℚ × ℚ)}
    (hne : ts ≠ []) (h : iousFrom E A c.params 0 E.valBatches = .ok ts) :
    valBody E A c =
      .ok () { c with val_loss :=
                c.val_loss ++ [(ts.map fun t => t.2.2).sum / (ts.length : ℚ)] }
        (valEvs E.valBatches) := by
  have hl := valLoop_ok E.valBatches 0 (.pfloat 0) (.pfloat 0) 0 0 none c ts h
    (le_refl 0)
  have h3ne : (ts.map fun t => t.2.2) ≠ [] := by
    simp only [ne_eq, List.map_eq_nil]
    exact hne
  have h2ne : (ts.map fun t => t.2.1) ≠ [] := by
    simp only [ne_eq, List.map_eq_nil]
    exact hne
  have hi3 : (accIou (.pfloat 0) (ts.map fun t => t.2.2)).item =
      .ok (ts.map fun t => t.2.2).sum := by
    rw [accIou_pfloat_zero h3ne]
    rfl
  have hi2 : (accIou (.pfloat 0) (ts.map fun t => t.2.1)).item =
      .ok (ts.map fun t => t.2.1).sum := by
    rw [accIou_pfloat_zero h2ne]
    rfl
  have hlen : (0 + (ts.length : Int)) ≠ 0 := by
    simp only [zero_add, ne_eq, Int.natCast_eq_zero, List.length_eq_zero]
    exact hne
  have hdiv : ∀ x : ℚ, pydivQ x (0 + (ts.length : Int)) = .ok (x / (ts.length : ℚ)) := by
    intro x
    rw [pydivQ, if_neg hlen]
    norm_num
  have hlne : E.valBatches ≠ [] := by
    have := iousFrom_length E.valBatches 0 ts h
    intro hx
    rw [hx] at this
    simp only [List.length_nil] at this
    exact hne (List.length_eq_zero.mp this)
  obtain ⟨j, hj⟩ := lastIdx_isSome E.valBatches 0 none hlne
  simp only [valBody, PyM.bind_def, PyM.bind, hl, liftEx, hi3, hi2, hdiv,
    hj, getVar, modifyC_apply, PyResult.addPre, List.nil_append,
    List.append_nil]

theorem validate_ok_char {E : Env T P} {A : Args} {c : Core P}
    {ts : List (ℚ × ℚ × ℚ)} (hne : ts ≠ [])
    (h : iousFrom E A c.params 0 E.valBatches = .ok ts) :
    Engine.validate E A c =
      .ok () (postVal c ((ts.map fun t => t.2.2).sum / (ts.length : ℚ)))
        (Ev.modelEval :: Ev.nogradEnter :: (valEvs E.valBatches ++ [Ev.nogradExit])) := by
  have hb := valBody_ok (c := { c with mode := PMode.evalMode }) hne h
  simp only [Engine.validate, PyM.bind_def, PyM.bind, modifyC_apply,
    emit_apply, withNoGrad, hb, PyResult.addPre, postVal, List.nil_append,
    List.append_nil, List.cons_append, List.singleton_append]

theorem validate_nil_char {E : Env T P} {A : Args} {c : Core P}
    (h : E.valBatches = []) :
    Engine.validate E A c =
      .err .attributeError { c with mode := .evalMode }
        [Ev.modelEval, Ev.nogradEnter, Ev.nogradExit] := by
  simp only [Engine.validate, valBody, h, valLoop, PyM.bind_def, PyM.bind,
    PyM.pure, modifyC_apply, emit_apply, withNoGrad, liftEx, PyNum.item,
    PyResult.addPre, List.nil_append, List.append_nil, List.cons_append,
    List.singleton_append]

theorem validate_err_char {E : Env T P} {A : Args} {c : Core P} {e : PyErr}
    (h : iousFrom E A c.params 0 E.valBatches = .error e) :
    ∃ evs', Engine.validate E A c =
        .err e { c with mode := .evalMode }
          (Ev.modelEval :: Ev.nogradEnter :: (evs' ++ [Ev.nogradExit])) ∧
        evs'.filter isFileEv = [] := by
  obtain ⟨evs', hr, hf⟩ := valLoop_err E.valBatches 0 (.pfloat 0) (.pfloat 0)
    0 0 none { c with mode := PMode.evalMode } e h (le_refl 0)
  refine ⟨evs', ?_, hf⟩
  simp only [Engine.validate, valBody, PyM.bind_def, PyM.bind, hr,
    modifyC_apply, emit_apply, withNoGrad, PyResult.addPre, List.nil_append,
    List.append_nil, List.cons_append, List.singleton_append]

theorem validate_ok_inv {E : Env T P} {A : Args} {c c' : Core P} {u : Unit}
    {evs : List Ev} (h : Engine.validate E A c = .ok u c' evs) :
    ∃ ts, iousFrom E A c.params 0 E.valBatches = .ok ts ∧ ts ≠ [] ∧
      c' = postVal c ((ts.map fun t => t.2.2).sum / (ts.length : ℚ)) ∧
      evs = Ev.modelEval :: Ev.nogradEnter ::
        (valEvs E.valBatches ++ [Ev.nogradExit]) := by
  cases hs : iousFrom E A c.params 0 E.valBatches with
  | error e =>
    obtain ⟨evs', hr, hf⟩ := validate_err_char hs
    rw [hr] at h
    exact absurd h (by simp)
  | ok ts =>
    by_cases hne : ts = []
    · subst hne
      have hlen := iousFrom_length E.valBatches 0 [] hs
      have hbn : E.valBatches = [] := by
        cases hb : E.valBatches with
        | nil => rfl
        | cons x xs => rw [hb] at hlen; simp at hlen
      rw [validate_nil_char hbn] at h
      exact absurd h (by simp)
    · have hc := validate_ok_char hne hs
      rw [hc] at h
      injection h with h1 h2 h3
      exact ⟨ts, rfl, hne, h2.symm, h3.symm⟩

theorem validate_err_inv {E : Env T P} {A : Args} {c c' : Core P} {e : PyErr}
    {evs : List Ev} (h : Engine.validate E A c = .err e c' evs) :
    c'.train_loss = c.train_loss ∧ c'.val_loss = c.val_loss ∧
      c'.bestval = c.bestval ∧ c'.cur_epoch = c.cur_epoch ∧
      c'.params = c.params ∧ evs.filter isFileEv = [] := by
  cases hs : iousFrom E A c.params 0 E.valBatches with
  | error e2 =>
    obtain ⟨evs', hr, hf⟩ := validate_err_char hs
    rw [hr] at h
    injection h with h1 h2 h3
    refine ⟨by rw [← h2], by rw [← h2], by rw [← h2], by rw [← h2],
      by rw [← h2], ?_⟩
    rw [← h3]
    simp [List.filter, List.filter_append, isFileEv, hf]
  | ok ts =>
    by_cases hne : ts = []
    · subst hne
      have hlen := iousFrom_length E.valBatches 0 [] hs
      have hbn : E.valBatches = [] := by
        cases hb : E.valBatches with
        | nil => rfl
        | cons x xs => rw [hb] at hlen; simp at hlen
      rw [validate_nil_char hbn] at h
      injection h with h1 h2 h3
      refine ⟨by rw [← h2], by rw [← h2], by rw [← h2], by rw [← h2],
        by rw [← h2], ?_⟩
      rw [← h3]
      simp [List.filter, isFileEv]
    · have hc := validate_ok_char hne hs
      rw [hc] at h
      exact absurd h (by simp)

/-- The log table built by `Engine.save` (lines 211-218): its `bestval` field
is `np.min(np.asarray(self.val_loss))`. -/
def saveTable (c : Core P) (minv : ℚ) : LogTable :=
  { epoch := c.cur_epoch
    bestval := minv
    train_loss := c.train_loss
    val_loss := c.val_loss
    train_metrics := ["NLLLoss", "iou"]
    val_metrics := ["NLLLoss", "iou", "iou_NN"] }

/-- The recent-checkpoint event trio written on every `save` (lines 221-226). -/
def saveEvsR (A : Args) (t : LogTable) : List Ev :=
  [.ckptWrite A.logdir .recentPth, .ckptWrite A.logdir .recentOptim,
   .logWrite A.logdir .recentLog t]

/-- The best-checkpoint event trio written when `save_best` (lines 230-235). -/
def saveEvsB (A : Args) (t : LogTable) : List Ev :=
  [.ckptWrite A.logdir .bestPth, .ckptWrite A.logdir .bestOptim,
   .logWrite A.logdir .bestLog t]

theorem save_ok_best {E : Env T P} {A : Args} {c : Core P} {last minv : ℚ}
    (hlast : pyLast c.val_loss = .ok last) (hb : c.bestval ≤ last)
    (hmin : npMin c.val_loss = .ok minv)
    (h1 : E.torchSave A.logdir .recentPth = .ok ())
    (h2 : E.torchSave A.logdir .recentOptim = .ok ())
    (h3 : E.writeLog A.logdir .recentLog = .ok ())
    (h4 : E.torchSave A.logdir .bestPth = .ok ())
    (h5 : E.torchSave A.logdir .bestOptim = .ok ())
    (h6 : E.writeLog A.logdir .bestLog = .ok ()) :
    Engine.save E A c = .ok () { c with bestval := last }
      (saveEvsR A (saveTable c minv) ++ saveEvsB A (saveTable c minv)) := by
  simp only [Engine.save, PyM.bind_def, PyM.bind, getC_apply, liftEx, hlast,
    hmin, h1, h2, h3, h4, h5, h6, if_pos hb, modifyC_apply, emit_apply,
    PyM.pure, PyResult.addPre, saveEvsR, saveEvsB, saveTable,
    List.nil_append, List.append_nil, List.cons_append, List.singleton_append]

theorem save_ok_nobest {E : Env T P} {A : Args} {c : Core P} {last minv : ℚ}
    (hlast : pyLast c.val_loss = .ok last) (hb : ¬ c.bestval ≤ last)
    (hmin : npMin c.val_loss = .ok minv)
    (h1 : E.torchSave A.logdir .recentPth = .ok ())
    (h2 : E.torchSave A.logdir .recentOptim = .ok ())
    (h3 : E.writeLog A.logdir .recentLog = .ok ()) :
    Engine.save E A c = .ok () c (saveEvsR A (saveTable c minv)) := by
  simp only [Engine.save, PyM.bind_def, PyM.bind, getC_apply, liftEx, hlast,
    hmin, h1, h2, h3, if_neg hb, modifyC_apply, emit_apply,
    PyM.pure, PyResult.addPre, saveEvsR, saveTable,
    List.nil_append, List.append_nil, List.cons_append, List.singleton_append]

theorem save_ok_inv {E : Env T P} {A : Args} {c c' : Core P} {u : Unit}
    {evs : List Ev} (h : Engine.save E A c = .ok u c' evs) :
    ∃ last minv, pyLast c.val_loss = .ok last ∧ npMin c.val_loss = .ok minv ∧
      c' = { c with bestval := max c.bestval last } ∧
      evs = (if c.bestval ≤ last
             then saveEvsR A (saveTable c minv) ++ saveEvsB A (saveTable c minv)
             else saveEvsR A (saveTable c minv)) := by
  cases hlast : pyLast c.val_loss with
  | error e1 =>
    simp only [Engine.save, PyM.bind_def, PyM.bind, getC_apply, liftEx,
      hlast] at h ; exact absurd h (by simp)
  | ok last =>
    cases hmin : npMin c.val_loss with
    | error e1 =>
      by_cases hb : c.bestval ≤ last
      · simp only [Engine.save, PyM.bind_def, PyM.bind, getC_apply, liftEx,
          hlast, if_pos hb, modifyC_apply, hmin, PyResult.addPre,
          List.nil_append] at h ; exact absurd h (by simp)
      · simp only [Engine.save, PyM.bind_def, PyM.bind, getC_apply, liftEx,
          hlast, if_neg hb, PyM.pure, hmin, PyResult.addPre,
          List.nil_append] at h ; exact absurd h (by simp)
    | ok minv =>
      cases ht1 : E.torchSave A.logdir FName.recentPth with
      | error e1 =>
        by_cases hb : c.bestval ≤ last
        · simp only [Engine.save, PyM.bind_def, PyM.bind, getC_apply, liftEx,
            hlast, if_pos hb, modifyC_apply, hmin, ht1, PyResult.addPre,
            List.nil_append] at h ; exact absurd h (by simp)
        · simp only [Engine.save, PyM.bind_def, PyM.bind, getC_apply, liftEx,
            hlast, if_neg hb, PyM.pure, hmin, ht1, PyResult.addPre,
            List.nil_append] at h ; exact absurd h (by simp)
      | ok u1 =>
        cases ht2 : E.torchSave A.logdir FName.recentOptim with
        | error e1 =>
          by_cases hb : c.bestval ≤ last
          · simp only [Engine.save, PyM.bind_def, PyM.bind, getC_apply, liftEx,
              hlast, if_pos hb, modifyC_apply, hmin, ht1, ht2, emit_apply,
              PyResult.addPre, List.nil_append, List.append_nil,
              List.cons_append, List.singleton_append] at h ; exact absurd h (by simp)
          · simp only [Engine.save, PyM.bind_def, PyM.bind, getC_apply, liftEx,
              hlast, if_neg hb, PyM.pure, hmin, ht1, ht2, emit_apply,
              PyResult.addPre, List.nil_append, List.append_nil,
              List.cons_append, List.singleton_append] at h ; exact absurd h (by simp)
        | ok u2 =>
          cases hw1 : E.writeLog A.logdir FName.recentLog with
          | error e1 =>
            by_cases hb : c.bestval ≤ last
            · simp only [Engine.save, PyM.bind_def, PyM.bind, getC_apply,
                liftEx, hlast, if_pos hb, modifyC_apply, hmin, ht1, ht2, hw1,
                emit_apply, PyResult.addPre, List.nil_append, List.append_nil,
                List.cons_append, List.singleton_append] at h ; exact absurd h (by simp)
            · simp only [Engine.save, PyM.bind_def, PyM.bind, getC_apply,
                liftEx, hlast, if_neg hb, PyM.pure, hmin, ht1, ht2, hw1,
                emit_apply, PyResult.addPre, List.nil_append, List.append_nil,
                List.cons_append, List.singleton_append] at h ; exact absurd h (by simp)
          | ok u3 =>
            by_cases hb : c.bestval ≤ last
            · cases ht3 : E.torchSave A.logdir FName.bestPth with
              | error e1 =>
                simp only [Engine.save, PyM.bind_def, PyM.bind, getC_apply,
                  liftEx, hlast, if_pos hb, modifyC_apply, hmin, ht1, ht2,
                  hw1, ht3, emit_apply, PyResult.addPre, List.nil_append,
                  List.append_nil, List.cons_append, List.singleton_append] at h ; exact absurd h (by simp)
              | ok u4 =>
                cases ht4 : E.torchSave A.logdir FName.bestOptim with
                | error e1 =>
                  simp only [Engine.save, PyM.bind_def, PyM.bind, getC_apply,
                    liftEx, hlast, if_pos hb, modifyC_apply, hmin, ht1, ht2,
                    hw1, ht3, ht4, emit_apply, PyResult.addPre,
                    List.nil_append, List.append_nil, List.cons_append,
                    List.singleton_append] at h ; exact absurd h (by simp)
                | ok u5 =>
                  cases hw2 : E.writeLog A.logdir FName.bestLog with
                  | error e1 =>
                    simp only [Engine.save, PyM.bind_def, PyM.bind, getC_apply,
                      liftEx, hlast, if_pos hb, modifyC_apply, hmin, ht1, ht2,
                      hw1, ht3, ht4, hw2, emit_apply, PyResult.addPre,
                      List.nil_append, List.append_nil, List.cons_append,
                      List.singleton_append] at h ; exact absurd h (by simp)
                  | ok u6 =>
                    have hc := save_ok_best (E := E) (A := A) hlast hb hmin
                      ht1 ht2 hw1 ht3 ht4 hw2
                    rw [hc] at h
                    injection h with hv hcc hev
                    refine ⟨last, minv, rfl, rfl, ?_, ?_⟩
                    · rw [← hcc]
                      have : max c.bestval last = last := max_eq_right hb
                      rw [this]
                    · rw [← hev, if_pos hb]
            · have hc := save_ok_nobest (E := E) (A := A) hlast hb hmin
                ht1 ht2 hw1
              rw [hc] at h
              injection h with hv hcc hev
              refine ⟨last, minv, rfl, rfl, ?_, ?_⟩
              · rw [← hcc]
                have : max c.bestval last = c.bestval := max_eq_left (le_of_not_le hb)
                rw [this]
              · rw [← hev, if_neg hb]

theorem save_err_inv {E : Env T P} {A : Args} {c c' : Core P} {e : PyErr}
    {evs : List Ev} (h : Engine.save E A c = .err e c' evs) :
    c'.train_loss = c.train_loss ∧ c'.val_loss = c.val_loss ∧
      c'.cur_epoch = c.cur_epoch ∧ c'.params = c.params ∧
      (c'.bestval = c.bestval ∨ pyLast c.val_loss = .ok c'.bestval) ∧
      ∃ tbl, evs.IsPrefix (saveEvsR A tbl ++ saveEvsB A tbl) := by
  cases hlast : pyLast c.val_loss with
  | error e1 =>
    simp only [Engine.save, PyM.bind_def, PyM.bind, getC_apply, liftEx,
      hlast] at h
    injection h with he hcc hev
    exact ⟨by rw [← hcc], by rw [← hcc], by rw [← hcc], by rw [← hcc],
      Or.inl (by rw [← hcc]),
      saveTable c 0, by rw [← hev]; exact List.nil_prefix⟩
  | ok last =>
    cases hmin : npMin c.val_loss with
    | error e1 =>
      by_cases hb : c.bestval ≤ last
      · simp only [Engine.save, PyM.bind_def, PyM.bind, getC_apply, liftEx,
          hlast, if_pos hb, modifyC_apply, hmin, PyResult.addPre,
          List.nil_append] at h
        injection h with he hcc hev
        exact ⟨by rw [← hcc], by rw [← hcc], by rw [← hcc], by rw [← hcc],
          Or.inr (by rw [← hcc]),
          saveTable c 0, by rw [← hev]; exact List.nil_prefix⟩
      · simp only [Engine.save, PyM.bind_def, PyM.bind, getC_apply, liftEx,
          hlast, if_neg hb, PyM.pure, hmin, PyResult.addPre,
          List.nil_append] at h
        injection h with he hcc hev
        exact ⟨by rw [← hcc], by rw [← hcc], by rw [← hcc], by rw [← hcc],
          Or.inl (by rw [← hcc]),
          saveTable c 0, by rw [← hev]; exact List.nil_prefix⟩
    | ok minv =>
      cases ht1 : E.torchSave A.logdir FName.recentPth with
      | error e1 =>
        by_cases hb : c.bestval ≤ last
        · simp only [Engine.save, PyM.bind_def, PyM.bind, getC_apply, liftEx,
            hlast, if_pos hb, modifyC_apply, hmin, ht1, PyResult.addPre,
            List.nil_append] at h
          injection h with he hcc hev
          exact ⟨by rw [← hcc], by rw [← hcc], by rw [← hcc], by rw [← hcc],
            Or.inr (by rw [← hcc]),
            saveTable c minv, by rw [← hev]; exact List.nil_prefix⟩
        · simp only [Engine.save, PyM.bind_def, PyM.bind, getC_apply, liftEx,
            hlast, if_neg hb, PyM.pure, hmin, ht1, PyResult.addPre,
            List.nil_append] at h
          injection h with he hcc hev
          exact ⟨by rw [← hcc], by rw [← hcc], by rw [← hcc], by rw [← hcc],
            Or.inl (by rw [← hcc]),
            saveTable c minv, by rw [← hev]; exact List.nil_prefix⟩
      | ok u1 =>
        cases ht2 : E.torchSave A.logdir FName.recentOptim with
        | error e1 =>
          by_cases hb : c.bestval ≤ last
          · simp only [Engine.save, PyM.bind_def, PyM.bind, getC_apply, liftEx,
              hlast, if_pos hb, modifyC_apply, hmin, ht1, ht2, emit_apply,
              PyResult.addPre, List.nil_append, List.append_nil,
              List.cons_append, List.singleton_append] at h
            injection h with he hcc hev
            refine ⟨by rw [← hcc], by rw [← hcc], by rw [← hcc], by rw [← hcc],
              Or.inr (by rw [← hcc]), saveTable c minv, ?_⟩
            rw [← hev]
            exact ⟨[.ckptWrite A.logdir .recentOptim,
              .logWrite A.logdir .recentLog (saveTable c minv),
              .ckptWrite A.logdir .bestPth, .ckptWrite A.logdir .bestOptim,
              .logWrite A.logdir .bestLog (saveTable c minv)],
              by simp [saveEvsR, saveEvsB, saveTable]⟩
          · simp only [Engine.save, PyM.bind_def, PyM.bind, getC_apply, liftEx,
              hlast, if_neg hb, PyM.pure, hmin, ht1, ht2, emit_apply,
              PyResult.addPre, List.nil_append, List.append_nil,
              List.cons_append, List.singleton_append] at h
            injection h with he hcc hev
            refine ⟨by rw [← hcc], by rw [← hcc], by rw [← hcc], by rw [← hcc],
              Or.inl (by rw [← hcc]), saveTable c minv, ?_⟩
            rw [← hev]
            exact ⟨[.ckptWrite A.logdir .recentOptim,
              .logWrite A.logdir .recentLog (saveTable c minv),
              .ckptWrite A.logdir .bestPth, .ckptWrite A.logdir .bestOptim,
              .logWrite A.logdir .bestLog (saveTable c minv)],
              by simp [saveEvsR, saveEvsB, saveTable]⟩
        | ok u2 =>
          cases hw1 : E.writeLog A.logdir FName.recentLog with
          | error e1 =>
            by_cases hb : c.bestval ≤ last
            · simp only [Engine.save, PyM.bind_def, PyM.bind, getC_apply,
                liftEx, hlast, if_pos hb, modifyC_apply, hmin, ht1, ht2, hw1,
                emit_apply, PyResult.addPre, List.nil_append, List.append_nil,
                List.cons_append, List.singleton_append] at h
              injection h with he hcc hev
              refine ⟨by rw [← hcc], by rw [← hcc], by rw [← hcc],
                by rw [← hcc], Or.inr (by rw [← hcc]),
                saveTable c minv, ?_⟩
              rw [← hev]
              exact ⟨[.logWrite A.logdir .recentLog (saveTable c minv),
                .ckptWrite A.logdir .bestPth, .ckptWrite A.logdir .bestOptim,
                .logWrite A.logdir .bestLog (saveTable c minv)],
                by simp [saveEvsR, saveEvsB, saveTable]⟩
            · simp only [Engine.save, PyM.bind_def, PyM.bind, getC_apply,
                liftEx, hlast, if_neg hb, PyM.pure, hmin, ht1, ht2, hw1,
                emit_apply, PyResult.addPre, List.nil_append, List.append_nil,
                List.cons_append, List.singleton_append] at h
              injection h with he hcc hev
              refine ⟨by rw [← hcc], by rw [← hcc], by rw [← hcc],
                by rw [← hcc], Or.inl (by rw [← hcc]),
                saveTable c minv, ?_⟩
              rw [← hev]
              exact ⟨[.logWrite A.logdir .recentLog (saveTable c minv),
                .ckptWrite A.logdir .bestPth, .ckptWrite A.logdir .bestOptim,
                .logWrite A.logdir .bestLog (saveTable c minv)],
                by simp [saveEvsR, saveEvsB, saveTable]⟩
          | ok u3 =>
            by_cases hb : c.bestval ≤ last
            · cases ht3 : E.torchSave A.logdir FName.bestPth with
              | error e1 =>
                simp only [Engine.save, PyM.bind_def, PyM.bind, getC_apply,
                  liftEx, hlast, if_pos hb, modifyC_apply, hmin, ht1, ht2,
                  hw1, ht3, emit_apply, PyResult.addPre, List.nil_append,
                  List.append_nil, List.cons_append, List.singleton_append] at h
                injection h with he hcc hev
                refine ⟨by rw [← hcc], by rw [← hcc], by rw [← hcc],
                  by rw [← hcc], Or.inr (by rw [← hcc]),
                  saveTable c minv, ?_⟩
                rw [← hev]
                exact ⟨[.ckptWrite A.logdir .bestPth,
                  .ckptWrite A.logdir .bestOptim,
                  .logWrite A.logdir .bestLog (saveTable c minv)],
                  by simp [saveEvsR, saveEvsB, saveTable]⟩
              | ok u4 =>
                cases ht4 : E.torchSave A.logdir FName.bestOptim with
                | error e1 =>
                  simp only [Engine.save, PyM.bind_def, PyM.bind, getC_apply,
                    liftEx, hlast, if_pos hb, modifyC_apply, hmin, ht1, ht2,
                    hw1, ht3, ht4, emit_apply, PyResult.addPre,
                    List.nil_append, List.append_nil, List.cons_append,
                    List.singleton_append] at h
                  injection h with he hcc hev
                  refine ⟨by rw [← hcc], by rw [← hcc], by rw [← hcc],
                    by rw [← hcc], Or.inr (by rw [← hcc]),
                    saveTable c minv, ?_⟩
                  rw [← hev]
                  exact ⟨[.ckptWrite A.logdir .bestOptim,
                    .logWrite A.logdir .bestLog (saveTable c minv)],
                    by simp [saveEvsR, saveEvsB, saveTable]⟩
                | ok u5 =>
                  cases hw2 : E.writeLog A.logdir FName.bestLog with
                  | error e1 =>
                    simp only [Engine.save, PyM.bind_def, PyM.bind, getC_apply,
                      liftEx, hlast, if_pos hb, modifyC_apply, hmin, ht1, ht2,
                      hw1, ht3, ht4, hw2, emit_apply, PyResult.addPre,
                      List.nil_append, List.append_nil, List.cons_append,
                      List.singleton_append] at h
                    injection h with he hcc hev
                    refine ⟨by rw [← hcc], by rw [← hcc], by rw [← hcc],
                      by rw [← hcc], Or.inr (by rw [← hcc]),
                      saveTable c minv, ?_⟩
                    rw [← hev]
                    exact ⟨[.logWrite A.logdir .bestLog (saveTable c minv)],
                      by simp [saveEvsR, saveEvsB, saveTable]⟩
                  | ok u6 =>
                    have hc := save_ok_best (E := E) (A := A) hlast hb hmin
                      ht1 ht2 hw1 ht3 ht4 hw2
                    rw [hc] at h
                    exact absurd h (by simp)
            · have hc := save_ok_nobest (E := E) (A := A) hlast hb hmin
                ht1 ht2 hw1
              rw [hc] at h
              exact absurd h (by simp)

theorem pyLast_concat (l : List ℚ) (a : ℚ) : pyLast (l ++ [a]) = .ok a := by
  rw [pyLast, List.getLast?_concat]

theorem listMax0_concat (l : List ℚ) (a : ℚ) :
    listMax0 (l ++ [a]) = max (listMax0 l) a := by
  rw [listMax0, listMax0, List.foldl_append]
  rfl

/-- The per-epoch phase pattern: train, then validate, then save. -/
def phasePattern : Nat → List PhaseMark
  | 0 => []
  | n + 1 => [PhaseMark.t, PhaseMark.v, PhaseMark.s] ++ phasePattern n

theorem trainEvs_marks : ∀ l : List (Batch T), (trainEvs l).filterMap markFn = [] := by
  intro l
  induction l with
  | nil => rfl
  | cons d ds ih => simp [trainEvs, markFn, ih]

theorem valEvs_marks : ∀ l : List (Batch T), (valEvs l).filterMap markFn = [] := by
  intro l
  induction l with
  | nil => rfl
  | cons d ds ih => simp [valEvs, markFn, ih]

theorem train_marks {E : Env T P} {A : Args} {c c' : Core P} {u : Unit}
    {evs : List Ev} (h : Engine.train E A c = .ok u c' evs) :
    evs.filterMap markFn = [PhaseMark.t] ∧ c'.cur_epoch = c.cur_epoch + 1 := by
  obtain ⟨ls, p', hs, hne, hc, hev⟩ := train_ok_inv h
  constructor
  · rw [hev]
    simp [markFn, trainEvs_marks]
  · rw [hc]
    rfl

theorem validate_marks {E : Env T P} {A : Args} {c c' : Core P} {u : Unit}
    {evs : List Ev} (h : Engine.validate E A c = .ok u c' evs) :
    evs.filterMap markFn = [PhaseMark.v] ∧ c'.cur_epoch = c.cur_epoch := by
  obtain ⟨ts, hs, hne, hc, hev⟩ := validate_ok_inv h
  constructor
  · rw [hev]
    simp [markFn, valEvs_marks]
  · rw [hc]
    rfl

theorem save_marks {E : Env T P} {A : Args} {c c' : Core P} {u : Unit}
    {evs : List Ev} (h : Engine.save E A c = .ok u c' evs) :
    evs.filterMap markFn = [PhaseMark.s] ∧ c'.cur_epoch = c.cur_epoch := by
  obtain ⟨last, minv, hl, hm, hc, hev⟩ := save_ok_inv h
  constructor
  · rw [hev]
    by_cases hb : c.bestval ≤ last
    · rw [if_pos hb]
      simp [saveEvsR, saveEvsB, markFn]
    · rw [if_neg hb]
      simp [saveEvsR, markFn]
  · rw [hc]

theorem epochStep_ok_inv {E : Env T P} {A : Args} {c c' : Core P} {u : Unit}
    {evs : List Ev} (h : epochStep E A c = .ok u c' evs) :
    ∃ c₁ c₂ evs₁ evs₂ evs₃,
      Engine.train E A c = .ok () c₁ evs₁ ∧
      Engine.validate E A c₁ = .ok () c₂ evs₂ ∧
      Engine.save E A c₂ = .ok () c' evs₃ ∧
      evs = evs₁ ++ (evs₂ ++ evs₃) := by
  have h' : PyM.bind (Engine.train E A)
      (fun _ => PyM.bind (Engine.validate E A) (fun _ => Engine.save E A)) c =
      .ok u c' evs := h
  obtain ⟨a1, c₁, l₁, l₂₃, h1, h23, hL⟩ := PyM.bind_eq_ok h'
  obtain ⟨a2, c₂, l₂, l₃, h2, h3, hL2⟩ := PyM.bind_eq_ok h23
  exact ⟨c₁, c₂, l₁, l₂, l₃, h1, h2, h3, by rw [hL, hL2]⟩

theorem epochLoop_ok_inv {E : Env T P} {A : Args} :
    ∀ (n : Nat) (c c' : Core P) (u : Unit) (evs : List Ev),
      epochLoop E A n c = .ok u c' evs →
      c'.cur_epoch = c.cur_epoch + n ∧
        evs.filterMap markFn = phasePattern n ∧
        (c.bestval = listMax0 c.val_loss → c'.bestval = listMax0 c'.val_loss) := by
  intro n
  induction n with
  | zero =>
    intro c c' u evs h
    injection h with h1 h2 h3
    subst h2
    subst h3
    exact ⟨by omega, rfl, fun hx => hx⟩
  | succ n ih =>
    intro c c' u evs h
    have h' : PyM.bind (epochStep E A) (fun _ => epochLoop E A n) c =
        .ok u c' evs := h
    obtain ⟨a1, c₁, l₁, l₂, h1, h2, hL⟩ := PyM.bind_eq_ok h'
    obtain ⟨cA, cB, e1, e2, e3, ht, hv, hs, hE⟩ := epochStep_ok_inv h1
    obtain ⟨hmt, het⟩ := train_marks ht
    obtain ⟨hmv, hev⟩ := validate_marks hv
    obtain ⟨hms, hes⟩ := save_marks hs
    obtain ⟨hen, hmn, hbn⟩ := ih c₁ c' a1 l₂ h2
    refine ⟨?_, ?_, ?_⟩
    · omega
    · rw [hL, hE]
      simp only [List.filterMap_append, hmt, hmv, hms, hmn, phasePattern]
      rfl
    · intro hInv
      apply hbn
      obtain ⟨ls, p', hls, hlne, hcA, hevT⟩ := train_ok_inv ht
      obtain ⟨ts, hts, htne, hcB, hevV⟩ := validate_ok_inv hv
      obtain ⟨lastq, minq, hlq, hmq, hc1, hevS⟩ := save_ok_inv hs
      have hvalA : cA.val_loss = c.val_loss := by rw [hcA]; rfl
      have hbA : cA.bestval = c.bestval := by rw [hcA]; rfl
      have hvalB : cB.val_loss = cA.val_loss ++
          [(ts.map fun t => t.2.2).sum / (ts.length : ℚ)] := by rw [hcB]; rfl
      have hbB : cB.bestval = cA.bestval := by rw [hcB]; rfl
      have hlast : pyLast cB.val_loss =
          .ok ((ts.map fun t => t.2.2).sum / (ts.length : ℚ)) := by
        rw [hvalB, pyLast_concat]
      rw [hlq] at hlast
      injection hlast with hlast
      have hval1 : c₁.val_loss = cB.val_loss := by rw [hc1]
      have hb1 : c₁.bestval = max cB.bestval lastq := by rw [hc1]
      rw [hb1, hval1, hvalB, hbB, hbA, hvalA, ← hlast, hInv,
        listMax0_concat]

theorem epochLoop_propagate {E : Env T P} {A : Args} :
    ∀ (j : Nat) (k : Nat) (c cMid cF : Core P) (evsC evsF : List Ev) (e : PyErr),
      j < k → epochLoop E A j c = .ok () cMid evsC →
      epochStep E A cMid = .err e cF evsF →
      epochLoop E A k c = .err e cF (evsC ++ evsF) := by
  intro j
  induction j with
  | zero =>
    intro k c cMid cF evsC evsF e hjk hok herr
    injection hok with h1 h2 h3
    subst h2
    subst h3
    cases k with
    | zero => omega
    | succ k' =>
      show PyM.bind (epochStep E A) (fun _ => epochLoop E A k') c = _
      rw [PyM.bind_apply_err herr]
      simp
  | succ j' ih =>
    intro k c cMid cF evsC evsF e hjk hok herr
    have hok' : PyM.bind (epochStep E A) (fun _ => epochLoop E A j') c =
        .ok () cMid evsC := hok
    obtain ⟨a1, c₁, l₁, l₂, h1, h2, hL⟩ := PyM.bind_eq_ok hok'
    cases k with
    | zero => omega
    | succ k' =>
      have hk' : j' < k' := by omega
      have hrec := ih k' c₁ cMid cF l₂ evsF e hk' h2 herr
      show PyM.bind (epochStep E A) (fun _ => epochLoop E A k') c = _
      rw [PyM.bind_apply_ok h1, hrec]
      simp only [PyResult.addPre_err, hL, List.append_assoc]

/-- Replacing only the `-val-every` and `-save-model` argument values. -/
def Args.setVS (A : Args) (v : Int) (b : Bool) : Args :=
  { A with val_every := v, save_model := b }

theorem dataPrep_setVS {E : Env T P} {A : Args} {v : Int} {b : Bool}
    (d : Batch T) : dataPrep E (A.setVS v b) d = dataPrep E A d := rfl

theorem batchLoss_setVS {E : Env T P} {A : Args} {v : Int} {b : Bool}
    (p : P) (d : Batch T) : batchLoss E (A.setVS v b) p d = batchLoss E A p d := rfl

theorem trainBatch_setVS {E : Env T P} {A : Args} {v : Int} {b : Bool}
    (d : Batch T) : trainBatch E (A.setVS v b) d = trainBatch E A d := rfl

theorem specValBatch_setVS {E : Env T P} {A : Args} {v : Int} {b : Bool}
    (p : P) (d : Batch T) :
    specValBatch E (A.setVS v b) p d = specValBatch E A p d := rfl

theorem valBatch_setVS {E : Env T P} {A : Args} {v : Int} {b : Bool}
    (d : Batch T) : valBatch E (A.setVS v b) d = valBatch E A d := rfl

theorem save_setVS {E : Env T P} {A : Args} {v : Int} {b : Bool} :
    Engine.save E (A.setVS v b) = Engine.save E A := rfl

theorem pymod_setVS {A : Args} {v : Int} {b : Bool} (i : Int) :
    pymod i (A.setVS v b).print_every = pymod i A.print_every := rfl

theorem trainLoop_setVS {E : Env T P} {A : Args} {v : Int} {b : Bool} :
    ∀ (l : List (Batch T)) (i : Int) (acc : ℚ) (nb : Int),
      trainLoop E (A.setVS v b) l i acc nb = trainLoop E A l i acc nb := by
  intro l
  induction l with
  | nil => intro i acc nb; rfl
  | cons d ds ih =>
    intro i acc nb
    simp only [trainLoop, trainBatch_setVS, pymod_setVS, ih]

theorem valLoop_setVS {E : Env T P} {A : Args} {v : Int} {b : Bool} :
    ∀ (l : List (Batch T)) (i : Int) (iouE iouNNE : PyNum) (nb : Int)
      (lossE : ℚ) (lastI : Option Int),
      valLoop E (A.setVS v b) l i iouE iouNNE nb lossE lastI =
        valLoop E A l i iouE iouNNE nb lossE lastI := by
  intro l
  induction l with
  | nil => intro i iouE iouNNE nb lossE lastI; rfl
  | cons d ds ih =>
    intro i iouE iouNNE nb lossE lastI
    simp only [valLoop, valBatch_setVS, pymod_setVS, ih]

theorem train_setVS {E : Env T P} {A : Args} {v : Int} {b : Bool} :
    Engine.train E (A.setVS v b) = Engine.train E A := by
  simp only [Engine.train, trainLoop_setVS]

theorem validate_setVS {E : Env T P} {A : Args} {v : Int} {b : Bool} :
    Engine.validate E (A.setVS v b) = Engine.validate E A := by
  simp only [Engine.validate, valBody, valLoop_setVS]

theorem epochStep_setVS {E : Env T P} {A : Args} {v : Int} {b : Bool} :
    epochStep E (A.setVS v b) = epochStep E A := by
  simp only [epochStep, train_setVS, validate_setVS, save_setVS]

theorem epochLoop_setVS {E : Env T P} {A : Args} {v : Int} {b : Bool} :
    ∀ n : Nat, epochLoop E (A.setVS v b) n = epochLoop E A n := by
  intro n
  induction n with
  | zero => rfl
  | succ n ih => simp only [epochLoop, epochStep_setVS, ih]

/-- Argument-dump events. -/
def isDump : Ev → Bool
  | .argsDump _ _ => true
  | _ => false

/-- Forget the contents of `args.txt` in a run's trace: everything else two
runs produce. -/
def stripDump : PyResult C α → PyResult C α
  | .ok a c l => .ok a c (l.filter fun e => !isDump e)
  | .err e c l => .err e c (l.filter fun e => !isDump e)

theorem runScript_run {E : Env T P} {A0 : Args} (c : Core P)
    (hW : E.writeArgs (joinPath (joinPath A0.logdir A0.expid) ("args.txt")) =
      .ok ()) :
    runScript E A0 c = PyResult.addPre
      (setupTrace E A0 ++
        [.argsDump (joinPath (joinPath A0.logdir A0.expid) ("args.txt"))
          { A0 with logdir := joinPath A0.logdir A0.expid }])
      (epochLoop E { A0 with logdir := joinPath A0.logdir A0.expid }
        A0.epochs.toNat c) := by
  cases hr : epochLoop E { A0 with logdir := joinPath A0.logdir A0.expid }
      A0.epochs.toNat c with
  | ok a cX L =>
    simp only [runScript, PyM.bind_def, PyM.bind, emitAll_apply, liftEx, hW,
      emit_apply, hr, PyResult.addPre, List.append_assoc, List.nil_append,
      List.append_nil, List.cons_append, List.singleton_append]
  | err e cX L =>
    simp only [runScript, PyM.bind_def, PyM.bind, emitAll_apply, liftEx, hW,
      emit_apply, hr, PyResult.addPre, List.append_assoc, List.nil_append,
      List.append_nil, List.cons_append, List.singleton_append]

theorem Args.setVS_logdir (A : Args) (v : Int) (b : Bool) :
    (A.setVS v b).logdir = A.logdir := rfl

theorem Args.setVS_expid (A : Args) (v : Int) (b : Bool) :
    (A.setVS v b).expid = A.expid := rfl

theorem Args.setVS_epochs (A : Args) (v : Int) (b : Bool) :
    (A.setVS v b).epochs = A.epochs := rfl

theorem setupTrace_setVS {E : Env T P} {A : Args} {v : Int} {b : Bool} :
    setupTrace E (A.setVS v b) = setupTrace E A := rfl

/-- The trace of a run, whether it completed or raised. -/
def outEvs : PyResult C α → List Ev
  | .ok _ _ l => l
  | .err _ _ l => l

theorem setVS_upd (A : Args) (v : Int) (b : Bool) :
    ({ A.setVS v b with
        logdir := joinPath (A.setVS v b).logdir (A.setVS v b).expid } : Args) =
      ({ A with logdir := joinPath A.logdir A.expid } : Args).setVS v b := rfl

theorem setVS_toNat (A : Args) (v : Int) (b : Bool) :
    (A.setVS v b).epochs.toNat = A.epochs.toNat := rfl

theorem runScript_setVS_strip {E : Env T P} {A : Args} {v : Int} {b : Bool}
    (c : Core P) :
    stripDump (runScript E (A.setVS v b) c) = stripDump (runScript E A c) := by
  have hupd : ({ Args.setVS A v b with logdir := joinPath A.logdir A.expid } : Args) =
      ({ A with logdir := joinPath A.logdir A.expid } : Args).setVS v b := rfl
  cases hw : E.writeArgs (joinPath (joinPath A.logdir A.expid) ("args.txt")) with
  | error e =>
    have l1 : runScript E (A.setVS v b) c =
        .err e c (setupTrace E A ++ []) := by
      simp only [runScript, PyM.bind_def, PyM.bind, emitAll_apply, liftEx,
        Args.setVS_logdir, Args.setVS_expid, setupTrace_setVS, hw,
        PyResult.addPre]
    have l2 : runScript E A c = .err e c (setupTrace E A ++ []) := by
      simp only [runScript, PyM.bind_def, PyM.bind, emitAll_apply, liftEx,
        hw, PyResult.addPre]
    rw [l1, l2]
  | ok u =>
    have hw1 : E.writeArgs (joinPath (joinPath A.logdir A.expid) ("args.txt")) =
        .ok () := hw
    have hw2 : E.writeArgs (joinPath (joinPath (A.setVS v b).logdir
        (A.setVS v b).expid) ("args.txt")) = .ok () := hw1
    rw [@runScript_run T P E (A.setVS v b) c hw2, @runScript_run T P E A c hw1]
    rw [setVS_upd, setVS_toNat, epochLoop_setVS, setupTrace_setVS]
    cases hr : epochLoop E { A with logdir := joinPath A.logdir A.expid }
        A.epochs.toNat c with
    | ok a cX L =>
      simp [hr, stripDump, PyResult.addPre, List.filter_append, isDump]
    | err e cX L =>
      simp [hr, stripDump, PyResult.addPre, List.filter_append, isDump]

/-- C1: the driver's main loop runs exactly `args.epochs` iterations and in
every iteration calls `trainer.train()`, then `trainer.validate()`, then
`trainer.save()` in that order (the filtered phase-marker trace of the whole
loop is the `[train, validate, save]` pattern repeated once per epoch, so
validation and checkpointing occur in every epoch and validation never
precedes that epoch's training); `train()` increments `cur_epoch` by exactly
1 per call, and after the loop `trainer.cur_epoch = args.epochs`. -/
theorem claim_C1 {T P : Type} (E : Env T P) (A : Args) (c c' : Core P)
    (u : Unit) (evs : List Ev)
    (hep : 0 ≤ A.epochs) (hc0 : c.cur_epoch = 0)
    (h : epochLoop E A A.epochs.toNat c = .ok u c' evs) :
    c'.cur_epoch = A.epochs ∧
      evs.filterMap markFn = phasePattern A.epochs.toNat ∧
      (∀ (c₁ c₂ : Core P) (u' : Unit) (evs' : List Ev),
        Engine.train E A c₁ = .ok u' c₂ evs' →
        c₂.cur_epoch = c₁.cur_epoch + 1) := by
  obtain ⟨he, hm, _⟩ := epochLoop_ok_inv _ c c' u evs h
  refine ⟨?_, hm, ?_⟩
  · rw [he, hc0]
    omega
  · intro c₁ c₂ u' evs' ht
    exact (train_marks ht).2

/-- C2: every successful `Engine.save` writes the recent checkpoint files,
writes the best checkpoint files if and only if `val_loss[-1] ≥ bestval` at
entry (in which case `bestval` is set to that value, i.e. `bestval` becomes
`max bestval val_loss[-1]`), and along any successful run of the epoch loop
the invariant `bestval = max 0 (all val_loss values so far)` is preserved;
it holds of the freshly initialised engine. -/
theorem claim_C2 {T P : Type} (E : Env T P) (A : Args) :
    (∀ (c c' : Core P) (u : Unit) (evs : List Ev) (last : ℚ),
      pyLast c.val_loss = .ok last →
      Engine.save E A c = .ok u c' evs →
      (Ev.ckptWrite A.logdir FName.recentPth ∈ evs ∧
        Ev.ckptWrite A.logdir FName.recentOptim ∈ evs ∧
        (∃ t, Ev.logWrite A.logdir FName.recentLog t ∈ evs)) ∧
      (Ev.ckptWrite A.logdir FName.bestPth ∈ evs ↔ c.bestval ≤ last) ∧
      (c.bestval ≤ last → c'.bestval = last) ∧
      c'.bestval = max c.bestval last ∧
      c'.val_loss = c.val_loss ∧ c'.train_loss = c.train_loss) ∧
    (∀ (n : Nat) (c c' : Core P) (u : Unit) (evs : List Ev),
      c.bestval = listMax0 c.val_loss →
      epochLoop E A n c = .ok u c' evs →
      c'.bestval = listMax0 c'.val_loss) ∧
    (∀ p : P, (Engine.init 0 1 1 p).bestval =
      listMax0 (Engine.init 0 1 1 p).val_loss) := by
  refine ⟨?_, ?_, ?_⟩
  · intro c c' u evs last hlast h
    obtain ⟨last', minv, hl', hm', hc, hev⟩ := save_ok_inv h
    rw [hlast] at hl'
    injection hl' with hl'
    subst hl'
    constructor
    · rw [hev]
      by_cases hb : c.bestval ≤ last
      · rw [if_pos hb]
        refine ⟨?_, ?_, saveTable c minv, ?_⟩ <;> simp [saveEvsR, saveEvsB]
      · rw [if_neg hb]
        refine ⟨?_, ?_, saveTable c minv, ?_⟩ <;> simp [saveEvsR]
    refine ⟨?_, ?_, ?_, ?_, ?_⟩
    · rw [hev]
      by_cases hb : c.bestval ≤ last
      · rw [if_pos hb]
        simp [saveEvsR, saveEvsB, hb]
      · rw [if_neg hb]
        simp [saveEvsR, hb]
    · intro hb
      rw [hc]
      show max c.bestval last = last
      exact max_eq_right hb
    · rw [hc]
    · rw [hc]
    · rw [hc]
  · intro n c c' u evs hInv h
    exact (epochLoop_ok_inv n c c' u evs h).2.2 hInv
  · intro p
    rfl

/-- C3: two runs that differ only in the `-val-every` and `-save-model`
argument values produce identical results apart from the recorded `args.txt`
contents: the entire result (status, final state, and event trace with the
argument-dump event removed) is equal, and `Engine.__init__` discards its
`print_every` and `validate_every` parameters. -/
theorem claim_C3 {T P : Type} (E : Env T P) (A1 A2 : Args) (c : Core P) (p : P)
    (ce pe1 ve1 pe2 ve2 : Int)
    (h1 : A1.expid = A2.expid) (h2 : A1.device = A2.device)
    (h3 : A1.categories = A2.categories) (h4 : A1.epochs = A2.epochs)
    (h5 : A1.batchsize = A2.batchsize) (h6 : A1.lr = A2.lr)
    (h7 : A1.print_every = A2.print_every) (h8 : A1.logdir = A2.logdir) :
    Engine.init ce pe1 ve1 p = Engine.init ce pe2 ve2 p ∧
      stripDump (runScript E A1 c) = stripDump (runScript E A2 c) := by
  constructor
  · rfl
  · have hA : A1 = A2.setVS A1.val_every A1.save_model := by
      cases A1
      cases A2
      simp only [Args.setVS] at h1 h2 h3 h4 h5 h6 h7 h8 ⊢
      simp_all
    rw [hA, runScript_setVS_strip]

/-- C4: a successful `Engine.train` processes every batch with `zero_grad`
before the forward pass and `backward` before `optimizer.step` (the trace is
exactly the `[zeroGrad, forward, backward, step]` pattern per batch), and it
appends exactly one value to `train_loss`: the sum of the per-batch MSE
losses between `pred_odms` (the model output scaled by 30) and the target
ODMs — as computed by `lossesFrom`/`batchLoss` — divided by the number of
batches. -/
theorem claim_C4 {T P : Type} (E : Env T P) (A : Args) (c c' : Core P)
    (u : Unit) (evs : List Ev) (h : Engine.train E A c = .ok u c' evs) :
    ∃ ls p', lossesFrom E A c.params 0 E.trainBatches = .ok (ls, p') ∧
      ls.length = E.trainBatches.length ∧ E.trainBatches ≠ [] ∧
      c'.train_loss = c.train_loss ++ [ls.sum / (ls.length : ℚ)] ∧
      c'.cur_epoch = c.cur_epoch + 1 ∧ c'.val_loss = c.val_loss ∧
      c'.bestval = c.bestval ∧
      evs = Ev.modelTrain :: trainEvs E.trainBatches := by
  obtain ⟨ls, p', hs, hne, hc, hev⟩ := train_ok_inv h
  have hlen := lossesFrom_length E.trainBatches c.params 0 ls p' hs
  have hbne : E.trainBatches ≠ [] := by
    intro hx
    rw [hx] at hlen
    simp only [List.length_nil] at hlen
    exact hne (List.length_eq_zero.mp hlen)
  exact ⟨ls, p', hs, hlen, hbne, by rw [hc]; rfl, by rw [hc]; rfl,
    by rw [hc]; rfl, by rw [hc]; rfl, hev⟩

/-- C5: a successful `Engine.validate` appends exactly one value to
`val_loss`, namely the accumulated IoU of the projected predicted voxels
against the targets divided by the number of batches (not the MSE loss,
which is computed inside `iousFrom` but never stored); it runs with the
model in eval mode inside the `no_grad` block (the trace is the eval-mark
and `no_grad` bracket around one forward event per batch) and modifies
neither the parameters, nor `cur_epoch`, nor `train_loss`. -/
theorem claim_C5 {T P : Type} (E : Env T P) (A : Args) (c c' : Core P)
    (u : Unit) (evs : List Ev) (h : Engine.validate E A c = .ok u c' evs) :
    ∃ ts, iousFrom E A c.params 0 E.valBatches = .ok ts ∧ ts ≠ [] ∧
      ts.length = E.valBatches.length ∧
      c'.val_loss = c.val_loss ++
        [(ts.map fun t => t.2.2).sum / (ts.length : ℚ)] ∧
      c'.train_loss = c.train_loss ∧ c'.cur_epoch = c.cur_epoch ∧
      c'.params = c.params ∧ c'.bestval = c.bestval ∧ c'.mode = .evalMode ∧
      evs = Ev.modelEval :: Ev.nogradEnter ::
        (valEvs E.valBatches ++ [Ev.nogradExit]) := by
  obtain ⟨ts, hs, hne, hc, hev⟩ := validate_ok_inv h
  have hlen := iousFrom_length E.valBatches 0 ts hs
  exact ⟨ts, hs, hne, hlen, by rw [hc]; rfl, by rw [hc]; rfl,
    by rw [hc]; rfl, by rw [hc]; rfl, by rw [hc]; rfl, by rw [hc]; rfl, hev⟩

theorem logWrite_in_R {A : Args} {tbl : LogTable} {d : String} {f : FName}
    {t : LogTable} (h : Ev.logWrite d f t ∈ saveEvsR A tbl) : t = tbl := by
  simp [saveEvsR] at h
  exact h.2.2

theorem logWrite_in_B {A : Args} {tbl : LogTable} {d : String} {f : FName}
    {t : LogTable} (h : Ev.logWrite d f t ∈ saveEvsB A tbl) : t = tbl := by
  simp [saveEvsB] at h
  exact h.2.2

/-- C6: every log file written by a successful `Engine.save` (always
`recent.log`, and `best.log` when the best checkpoint is written) records a
`bestval` field equal to `np.min` of `val_loss` — the minimum of all
validation values — not the running maximum `self.bestval` used for
best-checkpoint selection. -/
theorem claim_C6 {T P : Type} (E : Env T P) (A : Args) (c c' : Core P)
    (u : Unit) (evs : List Ev) (h : Engine.save E A c = .ok u c' evs) :
    ∃ minv, npMin c.val_loss = .ok minv ∧
      (∀ v vs, c.val_loss = v :: vs → minv = vs.foldl min v) ∧
      (∀ d f t, Ev.logWrite d f t ∈ evs → t.bestval = minv) ∧
      (∃ t, Ev.logWrite A.logdir FName.recentLog t ∈ evs ∧ t.bestval = minv) := by
  obtain ⟨last, minv, hl, hm, hc, hev⟩ := save_ok_inv h
  refine ⟨minv, hm, ?_, ?_, ?_⟩
  · intro v vs hvl
    rw [hvl] at hm
    rw [npMin] at hm
    injection hm with hm
    exact hm.symm
  · intro d f t ht
    rw [hev] at ht
    by_cases hb : c.bestval ≤ last
    · rw [if_pos hb] at ht
      rcases List.mem_append.mp ht with h1 | h1
      · rw [logWrite_in_R h1]
        rfl
      · rw [logWrite_in_B h1]
        rfl
    · rw [if_neg hb] at ht
      rw [logWrite_in_R ht]
      rfl
  · refine ⟨saveTable c minv, ?_, rfl⟩
    rw [hev]
    by_cases hb : c.bestval ≤ last
    · rw [if_pos hb]
      simp [saveEvsR, saveEvsB]
    · rw [if_neg hb]
      simp [saveEvsR]

/-- C7 (amended): the script catches no exceptions — an exception raised in
any phase of an epoch propagates out of the epoch loop, terminating it with
the remaining iterations never run; if the exception occurs during `train()`
or `validate()`, no checkpoint files are written for that epoch and
`train_loss`, `val_loss` and `bestval` retain only values from completed
phases; if it occurs during `save()`, exactly the checkpoint files already
written before the raising operation persist for that epoch (the trace is a
prefix of the full checkpoint-write sequence, and `bestval` may already have
been updated to `val_loss[-1]` by the partial save). -/
theorem claim_C7_amended {T P : Type} (E : Env T P) (A : Args) :
    (∀ (j k : Nat) (c cMid cF : Core P) (evsC evsF : List Ev) (e : PyErr),
      j < k → epochLoop E A j c = .ok () cMid evsC →
      epochStep E A cMid = .err e cF evsF →
      epochLoop E A k c = .err e cF (evsC ++ evsF)) ∧
    (∀ (c c' : Core P) (e : PyErr) (evs : List Ev),
      Engine.train E A c = .err e c' evs →
      evs.filter isFileEv = [] ∧ c'.train_loss = c.train_loss ∧
        c'.val_loss = c.val_loss ∧ c'.bestval = c.bestval ∧
        c'.cur_epoch = c.cur_epoch) ∧
    (∀ (c c' : Core P) (e : PyErr) (evs : List Ev),
      Engine.validate E A c = .err e c' evs →
      evs.filter isFileEv = [] ∧ c'.train_loss = c.train_loss ∧
        c'.val_loss = c.val_loss ∧ c'.bestval = c.bestval ∧
        c'.cur_epoch = c.cur_epoch) ∧
    (∀ (c c' : Core P) (e : PyErr) (evs : List Ev),
      Engine.save E A c = .err e c' evs →
      c'.train_loss = c.train_loss ∧ c'.val_loss = c.val_loss ∧
        c'.cur_epoch = c.cur_epoch ∧
        (c'.bestval = c.bestval ∨ pyLast c.val_loss = .ok c'.bestval) ∧
        ∃ tbl, evs.IsPrefix (saveEvsR A tbl ++ saveEvsB A tbl)) := by
  refine ⟨?_, ?_, ?_, ?_⟩
  · intro j k c cMid cF evsC evsF e hjk hok herr
    exact epochLoop_propagate j k c cMid cF evsC evsF e hjk hok herr
  · intro c c' e evs h
    obtain ⟨h1, h2, h3, h4, h5⟩ := train_err_inv h
    exact ⟨h5, h1, h2, h3, h4⟩
  · intro c c' e evs h
    obtain ⟨h1, h2, h3, h4, h5, h6⟩ := validate_err_inv h
    exact ⟨h6, h1, h2, h3, h4⟩
  · intro c c' e evs h
    obtain ⟨h1, h2, h3, h4, h5, h6⟩ := save_err_inv h
    exact ⟨h1, h2, h3, h5, h6⟩

/-- C8: the script's phases execute strictly in order — the run's result is
exactly the setup trace (datasets, loaders, model, the Adam optimizer with
`lr = args.lr`, the conditional `makedirs`), then the `args.txt` dump, and
only then the epoch loop; no checkpoint file is written before the loop
(the pre-loop trace contains no checkpoint events), the Adam event carries
`args.lr`, and `mkdir` appears exactly when the log directory is absent. -/
theorem claim_C8 {T P : Type} (E : Env T P) (A0 : Args) (c : Core P)
    (hW : E.writeArgs (joinPath (joinPath A0.logdir A0.expid) ("args.txt")) =
      .ok ()) :
    runScript E A0 c = PyResult.addPre
      (setupTrace E A0 ++
        [.argsDump (joinPath (joinPath A0.logdir A0.expid) ("args.txt"))
          { A0 with logdir := joinPath A0.logdir A0.expid }])
      (epochLoop E { A0 with logdir := joinPath A0.logdir A0.expid }
        A0.epochs.toNat c) ∧
    (setupTrace E A0 ++
      [Ev.argsDump (joinPath (joinPath A0.logdir A0.expid) ("args.txt"))
        { A0 with logdir := joinPath A0.logdir A0.expid }]).filter isCkptEv
      = [] ∧
    Ev.adamInit A0.lr ∈ setupTrace E A0 ∧
    (E.dirExists (joinPath A0.logdir A0.expid) = false →
      Ev.mkdirEv (joinPath A0.logdir A0.expid) ∈ setupTrace E A0) := by
  refine ⟨runScript_run c hW, ?_, ?_, ?_⟩
  · rw [setupTrace]
    by_cases hd : E.dirExists (joinPath A0.logdir A0.expid)
    · rw [if_pos hd]
      simp [isCkptEv]
    · rw [if_neg hd]
      simp [isCkptEv]
  · rw [setupTrace]
    simp
  · intro hd
    rw [setupTrace, hd]
    simp

/-- C9: both loaders are constructed with `batch_size = args.batchsize` and
8 workers over datasets restricted to `args.categories`; the training loader
has `shuffle=True` and the validation loader `shuffle=False`; the four
constructor events open every run's trace in that order, and a successful
validation pass visits exactly the loader's batch list in its fixed order
(one forward event per batch). -/
theorem claim_C9 {T P : Type} (E : Env T P) (A0 : Args) :
    (dataloader_train A0).batch_size = A0.batchsize ∧
    (dataloader_train A0).shuffle = true ∧
    (dataloader_train A0).num_workers = 8 ∧
    (dataloader_val A0).batch_size = A0.batchsize ∧
    (dataloader_val A0).shuffle = false ∧
    (dataloader_val A0).num_workers = 8 ∧
    (train_set A0).categories = A0.categories ∧
    (valid_set A0).categories = A0.categories ∧
    (∀ c : Core P, (outEvs (runScript E A0 c)).take 4 =
      [.datasetMake (train_set A0), .loaderMake (dataloader_train A0),
       .datasetMake (valid_set A0), .loaderMake (dataloader_val A0)]) ∧
    (∀ (c c' : Core P) (u : Unit) (evs : List Ev),
      Engine.validate E A0 c = .ok u c' evs →
      evs = Ev.modelEval :: Ev.nogradEnter ::
        (valEvs E.valBatches ++ [Ev.nogradExit])) := by
  refine ⟨rfl, rfl, rfl, rfl, rfl, rfl, rfl, rfl, ?_, ?_⟩
  · intro c
    cases hw : E.writeArgs
        (joinPath (joinPath A0.logdir A0.expid) ("args.txt")) with
    | error e =>
      have : runScript E A0 c =
          .err e c (setupTrace E A0 ++ []) := by
        simp only [runScript, PyM.bind_def, PyM.bind, emitAll_apply, liftEx,
          hw, PyResult.addPre]
      rw [this]
      rfl
    | ok u =>
      have hw1 : E.writeArgs
          (joinPath (joinPath A0.logdir A0.expid) ("args.txt")) = .ok () := hw
      rw [runScript_run c hw1]
      cases hr : epochLoop E { A0 with logdir := joinPath A0.logdir A0.expid }
          A0.epochs.toNat c with
      | ok a cX L =>
        simp only [hr, PyResult.addPre_ok, outEvs]
        rfl
      | err e cX L =>
        simp only [hr, PyResult.addPre_err, outEvs]
        rfl
  · intro c c' u evs h
    obtain ⟨ts, hs, hne, hc, hev⟩ := validate_ok_inv h
    exact hev

/-- C10: with a dataloader yielding zero batches, `Engine.train` raises
`ZeroDivisionError` at `loss_epoch / num_batches` (appending nothing to
`train_loss` and leaving `cur_epoch` unchanged), and `Engine.validate`
raises `AttributeError` before appending anything to `val_loss`, because
`iou_epoch` is still the plain float `0.` when `.item()` is called (the
final state differs from the entry state only in the module mode flag). -/
theorem claim_C10 {T P : Type} (E : Env T P) (A : Args) (c : Core P) :
    (E.trainBatches = [] →
      Engine.train E A c =
        .err .zeroDivisionError { c with mode := .trainMode } [Ev.modelTrain]) ∧
    (E.valBatches = [] →
      Engine.validate E A c =
        .err .attributeError { c with mode := .evalMode }
          [Ev.modelEval, Ev.nogradEnter, Ev.nogradExit]) := by
  exact ⟨fun h => train_nil_char h, fun h => validate_nil_char h⟩

/-- Concrete witness environment over trivial tensors and parameters: every
external call succeeds, both loaders yield one batch, every scalar is 2. -/
def envW : Env Unit Unit :=
  { trainBatches := [{ odms := (), voxels := () }]
    valBatches := [{ odms := (), voxels := () }]
    toDevice := fun _ _ => .ok ()
    down_sample := fun _ => .ok ()
    iterBatch := fun _ => [()]
    extract_odms := fun _ => .ok ()
    unsqueeze0 := id
    cat := fun _ => ()
    forward := fun _ _ => .ok ()
    mulInt := fun t _ => t
    mse := fun _ _ => .ok ()
    item := fun _ => 2
    backward := fun _ => .ok ()
    step := id
    up_sample := fun _ => .ok ()
    contiguous := id
    iou := fun _ _ => .ok ()
    toIntT := id
    project_odms := fun _ _ _ => .ok ()
    torchSave := fun _ _ => .ok ()
    writeLog := fun _ _ => .ok ()
    writeArgs := fun _ => .ok ()
    dirExists := fun _ => false }

/-- Witness arguments: defaults with a short log path and two epochs. -/
def argsW : Args := { Args.defaults with logdir := "L", expid := "D", epochs := 2 }

/-- Witness engine state: the driver's `Engine()` construction. -/
def coreW : Core Unit := Engine.init 0 1 1 ()

/-- Environment whose `recent_optim.pth` write raises `IOError`. -/
def envFS : Env Unit Unit :=
  { envW with torchSave := fun _ f =>
      if f = FName.recentOptim then .error .ioError else .ok () }

/-- One-epoch witness arguments. -/
def argsC7 : Args := { argsW with epochs := 1 }

/-- Environment whose backward pass raises. -/
def envTF : Env Unit Unit :=
  { envW with backward := fun _ => .error .runtimeError }

/-- Environment whose `up_sample` call raises during validation. -/
def envVF : Env Unit Unit :=
  { envW with up_sample := fun _ => .error .runtimeError }

/-- Environment with empty dataloaders. -/
def envE : Env Unit Unit :=
  { envW with trainBatches := [], valBatches := [] }

/-- Metric-name constants of the log table. -/
def mets1 : List String := ["NLLLoss", "iou"]

/-- Metric-name constants of the log table. -/
def mets2 : List String := ["NLLLoss", "iou", "iou_NN"]

/-- Log table after the first witness epoch. -/
def tbl1W : LogTable := ⟨1, 2, [2], [2], mets1, mets2⟩

/-- Log table after the second witness epoch. -/
def tbl2W : LogTable := ⟨2, 2, [2, 2], [2, 2], mets1, mets2⟩

/-- Events of one successful witness epoch (best checkpoint included). -/
def epochEvsW (d : String) (t : LogTable) : List Ev :=
  [.modelTrain, .zeroGrad, .forwardEv, .backwardEv, .stepEv,
   .modelEval, .nogradEnter, .forwardEv, .nogradExit,
   .ckptWrite d .recentPth, .ckptWrite d .recentOptim,
   .logWrite d .recentLog t,
   .ckptWrite d .bestPth, .ckptWrite d .bestOptim, .logWrite d .bestLog t]

/-- Final state of the two-epoch witness loop. -/
def c1W : Core Unit := ⟨2, [2, 2], [2, 2], 2, (), .evalMode⟩

/-- Trace of the two-epoch witness loop. -/
def evs1W : List Ev := epochEvsW ("L") tbl1W ++ epochEvsW ("L") tbl2W

/-- State after one witness `Engine.train`. -/
def c1tW : Core Unit := ⟨1, [2], [], 0, (), .trainMode⟩

/-- Trace of one witness `Engine.train`. -/
def evs1tW : List Ev := [.modelTrain, .zeroGrad, .forwardEv, .backwardEv, .stepEv]

/-- State after one witness `Engine.validate`. -/
def c1vW : Core Unit := ⟨0, [], [2], 0, (), .evalMode⟩

/-- Trace of one witness `Engine.validate`. -/
def evs1vW : List Ev := [.modelEval, .nogradEnter, .forwardEv, .nogradExit]

/-- Arguments with a distinct log directory for the save witnesses. -/
def argsZ : Args := { argsW with logdir := "Z" }

/-- Engine state entering the save witness: `val_loss = [3, 1]`, running
best `3`, so the final value `1` is not a new best. -/
def c2W : Core Unit := ⟨1, [5], [3, 1], 3, (), .evalMode⟩

/-- Log table the save witness writes: its `bestval` field is the minimum 1,
not the running best 3. -/
def tblZ : LogTable := ⟨1, 1, [5], [3, 1], mets1, mets2⟩

/-- Trace of the no-best save witness. -/
def evs2W : List Ev :=
  [.ckptWrite ("Z") .recentPth, .ckptWrite ("Z") .recentOptim,
   .logWrite ("Z") .recentLog tblZ]

/-- Final state of the one-epoch witness loop. -/
def c1eW : Core Unit := ⟨1, [2], [2], 2, (), .evalMode⟩

/-- Trace of the one-epoch witness loop. -/
def evsE1W : List Ev := epochEvsW ("L") tbl1W

/-- Witness arguments differing from `argsW` only in `-val-every` and
`-save-model`. -/
def argsV : Args := { argsW with val_every := 7, save_model := true }

/-- Trace of the failing witness `Engine.train` (backward raises). -/
def evsTFW : List Ev := [.modelTrain, .zeroGrad, .forwardEv]

/-- State after the failing witness `Engine.validate`. -/
def cVFW : Core Unit := ⟨0, [], [], 0, (), .evalMode⟩

/-- Trace of the failing witness `Engine.validate`. -/
def evsVFW : List Ev := [.modelEval, .nogradEnter, .forwardEv, .nogradExit]

/-- Arguments whose log directory is the joined witness path. -/
def argsLD : Args := { argsW with logdir := joinPath ("L") ("D") }

/-- Engine state entering the failing save witness. -/
def cSV : Core Unit := ⟨1, [], [3], 0, (), .trainMode⟩

/-- Engine state left by the failing save witness: `bestval` was already
updated to `val_loss[-1] = 3` before the raising write. -/
def cSVx : Core Unit := ⟨1, [], [3], 3, (), .trainMode⟩

/-- Trace of the failing save witness: `recent.pth` was written. -/
def evsSV : List Ev := [.ckptWrite (joinPath ("L") ("D")) .recentPth]

/-- The arguments record dumped by the counterexample run. -/
def argsC7x : Args :=
  ⟨"D", "cuda", ["chair"], 1, 16, mkRat 1 1000, 5, 20, joinPath ("L") ("D"), false⟩

/-- Final state of the counterexample run: note `bestval = 2` was set by the
save that then raised. -/
def cC7 : Core Unit := ⟨1, [2], [2], 2, (), .evalMode⟩

/-- Trace of the counterexample run. -/
def evsC7 : List Ev :=
  [.datasetMake ⟨"../../datasets/", ["chair"], true, true⟩,
   .loaderMake ⟨16, true, 8⟩,
   .datasetMake ⟨"../../datasets/", ["chair"], true, false⟩,
   .loaderMake ⟨16, false, 8⟩,
   .modelInit, .adamInit (mkRat 1 1000),
   .mkdirEv (joinPath ("L") ("D")),
   .argsDump (joinPath (joinPath ("L") ("D")) ("args.txt")) argsC7x,
   .modelTrain, .zeroGrad, .forwardEv, .backwardEv, .stepEv,
   .modelEval, .nogradEnter, .forwardEv, .nogradExit,
   .ckptWrite (joinPath ("L") ("D")) .recentPth]


/-- Intermediate state: after validate of epoch 0, before its save. -/
def cE1b : Core Unit := ⟨1, [2], [2], 0, (), .evalMode⟩

/-- Intermediate state: after train of epoch 1. -/
def cE2a : Core Unit := ⟨2, [2, 2], [2], 2, (), .trainMode⟩

/-- Intermediate state: after validate of epoch 1, before its save. -/
def cE2b : Core Unit := ⟨2, [2, 2], [2, 2], 2, (), .evalMode⟩

/-- One-epoch witness arguments with the joined log directory. -/
def argsLD1 : Args := { argsC7 with logdir := joinPath ("L") ("D") }

theorem batchLossW (A : Args) (p : Unit) (d : Batch Unit) :
    batchLoss envW A p d = .ok 2 := rfl

theorem batchLossFS (A : Args) (p : Unit) (d : Batch Unit) :
    batchLoss envFS A p d = .ok 2 := rfl

theorem specValBatchW (A : Args) (p : Unit) (d : Batch Unit) :
    specValBatch envW A p d = .ok (2, 2, 2) := rfl

theorem specValBatchFS (A : Args) (p : Unit) (d : Batch Unit) :
    specValBatch envFS A p d = .ok (2, 2, 2) := rfl

theorem lossesW (A : Args) (hpe : A.print_every ≠ 0) (p : Unit) :
    lossesFrom envW A p 0 envW.trainBatches = .ok ([2], ()) := by
  simp [lossesFrom, batchLossW, pymod, hpe]

theorem lossesFS (A : Args) (hpe : A.print_every ≠ 0) (p : Unit) :
    lossesFrom envFS A p 0 envFS.trainBatches = .ok ([2], ()) := by
  simp [lossesFrom, batchLossFS, pymod, hpe]

theorem iousW (A : Args) (hpe : A.print_every ≠ 0) (p : Unit) :
    iousFrom envW A p 0 envW.valBatches = .ok [(2, 2, 2)] := by
  simp [iousFrom, specValBatchW, pymod, hpe]

theorem iousFS (A : Args) (hpe : A.print_every ≠ 0) (p : Unit) :
    iousFrom envFS A p 0 envFS.valBatches = .ok [(2, 2, 2)] := by
  simp [iousFrom, specValBatchFS, pymod, hpe]

theorem postTrain_eval (c : Core Unit) : postTrain c [2] () =
    ⟨c.cur_epoch + 1, c.train_loss ++ [2], c.val_loss, c.bestval, (),
      .trainMode⟩ := by
  simp only [postTrain]
  norm_num

theorem trainW_eval (A : Args) (hpe : A.print_every ≠ 0) (c : Core Unit) :
    Engine.train envW A c = .ok ()
      ⟨c.cur_epoch + 1, c.train_loss ++ [2], c.val_loss, c.bestval, (),
        .trainMode⟩
      (Ev.modelTrain :: trainEvs envW.trainBatches) := by
  rw [train_ok_char (by simp) (lossesW A hpe c.params), postTrain_eval]

theorem trainFS_eval (A : Args) (hpe : A.print_every ≠ 0) (c : Core Unit) :
    Engine.train envFS A c = .ok ()
      ⟨c.cur_epoch + 1, c.train_loss ++ [2], c.val_loss, c.bestval, (),
        .trainMode⟩
      (Ev.modelTrain :: trainEvs envFS.trainBatches) := by
  rw [train_ok_char (by simp) (lossesFS A hpe c.params), postTrain_eval]

theorem outW_eval :
    ((([((2 : ℚ), (2 : ℚ), (2 : ℚ))]).map fun t => t.2.2).sum /
      ((([((2 : ℚ), (2 : ℚ), (2 : ℚ))]).length : ℕ) : ℚ)) = 2 := by
  norm_num

theorem valW_eval (A : Args) (hpe : A.print_every ≠ 0) (c : Core Unit) :
    Engine.validate envW A c = .ok () (postVal c 2)
      (Ev.modelEval :: Ev.nogradEnter ::
        (valEvs envW.valBatches ++ [Ev.nogradExit])) := by
  rw [validate_ok_char (by simp) (iousW A hpe c.params), outW_eval]

theorem valFS_eval (A : Args) (hpe : A.print_every ≠ 0) (c : Core Unit) :
    Engine.validate envFS A c = .ok () (postVal c 2)
      (Ev.modelEval :: Ev.nogradEnter ::
        (valEvs envFS.valBatches ++ [Ev.nogradExit])) := by
  rw [validate_ok_char (by simp) (iousFS A hpe c.params), outW_eval]

theorem train1_eval : Engine.train envW argsW coreW = .ok () c1tW evs1tW := by
  rw [trainW_eval argsW (by decide) coreW]
  rfl

theorem val0_eval : Engine.validate envW argsW coreW = .ok () c1vW evs1vW := by
  rw [valW_eval argsW (by decide) coreW]
  rfl

theorem val1_eval : Engine.validate envW argsW c1tW = .ok () cE1b evs1vW := by
  rw [valW_eval argsW (by decide) c1tW]
  rfl

theorem save1_eval : Engine.save envW argsW cE1b = .ok () c1eW
    [.ckptWrite ("L") .recentPth, .ckptWrite ("L") .recentOptim,
     .logWrite ("L") .recentLog tbl1W,
     .ckptWrite ("L") .bestPth, .ckptWrite ("L") .bestOptim,
     .logWrite ("L") .bestLog tbl1W] := by
  decide

theorem train2_eval : Engine.train envW argsW c1eW = .ok () cE2a
    evs1tW := by
  rw [trainW_eval argsW (by decide) c1eW]
  rfl

theorem val2_eval : Engine.validate envW argsW cE2a = .ok () cE2b evs1vW := by
  rw [valW_eval argsW (by decide) cE2a]
  rfl

theorem save2_eval : Engine.save envW argsW cE2b = .ok () c1W
    [.ckptWrite ("L") .recentPth, .ckptWrite ("L") .recentOptim,
     .logWrite ("L") .recentLog tbl2W,
     .ckptWrite ("L") .bestPth, .ckptWrite ("L") .bestOptim,
     .logWrite ("L") .bestLog tbl2W] := by
  decide

theorem step1_eval : epochStep envW argsW coreW =
    .ok () c1eW (epochEvsW ("L") tbl1W) := by
  simp only [epochStep, PyM.bind_def, PyM.bind, train1_eval, val1_eval,
    save1_eval, PyResult.addPre]
  rfl

theorem step2_eval : epochStep envW argsW c1eW =
    .ok () c1W (epochEvsW ("L") tbl2W) := by
  simp only [epochStep, PyM.bind_def, PyM.bind, train2_eval, val2_eval,
    save2_eval, PyResult.addPre]
  rfl

theorem loop1_eval : epochLoop envW argsW 1 coreW = .ok () c1eW evsE1W := by
  simp only [epochLoop, PyM.bind_def, PyM.bind, step1_eval, PyM.pure,
    PyResult.addPre]
  rfl

theorem loop2_eval : epochLoop envW argsW 2 coreW = .ok () c1W evs1W := by
  simp only [epochLoop, PyM.bind_def, PyM.bind, step1_eval, step2_eval,
    PyM.pure, PyResult.addPre]
  rfl

theorem trainFS1_eval : Engine.train envFS argsLD1 coreW =
    .ok () c1tW evs1tW := by
  rw [trainFS_eval argsLD1 (by decide) coreW]
  rfl

theorem valFS1_eval : Engine.validate envFS argsLD1 c1tW =
    .ok () cE1b evs1vW := by
  rw [valFS_eval argsLD1 (by decide) c1tW]
  rfl

theorem saveFS1_eval : Engine.save envFS argsLD1 cE1b =
    .err .ioError cC7 evsSV := by
  decide

theorem stepFS1_eval : epochStep envFS argsLD1 coreW =
    .err .ioError cC7 (evs1tW ++ (evs1vW ++ evsSV)) := by
  simp only [epochStep, PyM.bind_def, PyM.bind, trainFS1_eval, valFS1_eval,
    saveFS1_eval, PyResult.addPre]

theorem loopFS1_eval : epochLoop envFS argsLD1 argsC7.epochs.toNat coreW =
    .err .ioError cC7 (evs1tW ++ (evs1vW ++ evsSV)) := by
  show epochLoop envFS argsLD1 1 coreW = _
  simp only [epochLoop, PyM.bind_def, PyM.bind, stepFS1_eval]

theorem runFS_eval : runScript envFS argsC7 coreW = .err .ioError cC7 evsC7 := by
  rw [@runScript_run Unit Unit envFS argsC7 coreW rfl]
  rw [show ({ argsC7 with
      logdir := joinPath argsC7.logdir argsC7.expid } : Args) = argsLD1 from rfl]
  rw [loopFS1_eval]
  decide

/-- C7 counterexample: a one-epoch run in which the `recent_optim.pth` write
raises `IOError`.  The exception propagates uncaught (the run's result is an
error), yet the `recent.pth` checkpoint WAS written during the very epoch in
which the exception occurred, and `bestval` holds the value `2` installed by
the partial (uncompleted) `save` — contradicting "no checkpoint files are
written for the epoch in which the exception occurs" and "bestval retains
only values from completed phases". -/
theorem claim_C7_counterexample :
    runScript envFS argsC7 coreW = .err .ioError cC7 evsC7 ∧
    Ev.ckptWrite (joinPath ("L") ("D")) FName.recentPth ∈ evsC7 ∧
    evsC7.filter isCkptEv ≠ [] ∧
    argsC7.epochs = 1 ∧ coreW.cur_epoch = 0 ∧
    coreW.bestval = 0 ∧ cC7.bestval = 2 :=
  ⟨runFS_eval, by decide, by decide, rfl, rfl, rfl, rfl⟩

/-- Witness for C1: the two-epoch witness run. -/
theorem claim_C1_witness :
    ((0 : Int) ≤ argsW.epochs ∧ coreW.cur_epoch = 0 ∧
      epochLoop envW argsW argsW.epochs.toNat coreW = .ok () c1W evs1W ∧
      Engine.train envW argsW coreW = .ok () c1tW evs1tW) ∧
    c1W.cur_epoch = argsW.epochs ∧
    evs1W.filterMap markFn = phasePattern argsW.epochs.toNat ∧
    c1tW.cur_epoch = coreW.cur_epoch + 1 := by
  have hl : epochLoop envW argsW argsW.epochs.toNat coreW =
      .ok () c1W evs1W := loop2_eval
  have hc := claim_C1 envW argsW coreW c1W () evs1W (by decide) rfl hl
  exact ⟨⟨by decide, rfl, hl, train1_eval⟩, hc.1, hc.2.1,
    hc.2.2 coreW c1tW () evs1tW train1_eval⟩

/-- Witness for C2: a save with `val_loss = [3, 1]` and running best `3`
(no best checkpoint, `bestval` keeps `3 = max 3 1`), and the one-epoch loop
preserving the `bestval = max 0 val_loss` invariant. -/
theorem claim_C2_witness :
    (pyLast c2W.val_loss = .ok 1 ∧
      Engine.save envW argsZ c2W = .ok () c2W evs2W) ∧
    ((Ev.ckptWrite argsZ.logdir FName.bestPth ∈ evs2W) ↔ c2W.bestval ≤ 1) ∧
    c2W.bestval = max c2W.bestval 1 ∧
    (coreW.bestval = listMax0 coreW.val_loss ∧
      epochLoop envW argsW 1 coreW = .ok () c1eW evsE1W) ∧
    c1eW.bestval = listMax0 c1eW.val_loss := by
  have h1 : pyLast c2W.val_loss = .ok 1 := rfl
  have h2 : Engine.save envW argsZ c2W = .ok () c2W evs2W := by decide
  have hp := (claim_C2 envW argsZ).1 c2W c2W () evs2W 1 h1 h2
  have h4 : coreW.bestval = listMax0 coreW.val_loss := by decide
  have h5 : epochLoop envW argsW 1 coreW = .ok () c1eW evsE1W := loop1_eval
  exact ⟨⟨h1, h2⟩, hp.2.1, hp.2.2.2.1, ⟨h4, h5⟩,
    (claim_C2 envW argsW).2.1 1 coreW c1eW () evsE1W h4 h5⟩

/-- Witness for C3: two runs differing only in `-val-every` (5 vs 7) and
`-save-model` (off vs on) produce identical results modulo `args.txt`. -/
theorem claim_C3_witness :
    (argsW.expid = argsV.expid ∧ argsW.device = argsV.device ∧
      argsW.categories = argsV.categories ∧ argsW.epochs = argsV.epochs ∧
      argsW.batchsize = argsV.batchsize ∧ argsW.lr = argsV.lr ∧
      argsW.print_every = argsV.print_every ∧ argsW.logdir = argsV.logdir ∧
      argsW.val_every ≠ argsV.val_every ∧
      argsW.save_model ≠ argsV.save_model) ∧
    Engine.init 0 3 4 () = Engine.init 0 9 9 () ∧
    stripDump (runScript envW argsW coreW) =
      stripDump (runScript envW argsV coreW) := by
  have hc := claim_C3 envW argsW argsV coreW () 0 3 4 9 9
    rfl rfl rfl rfl rfl rfl rfl rfl
  exact ⟨⟨rfl, rfl, rfl, rfl, rfl, rfl, rfl, rfl, by decide, by decide⟩,
    hc.1, hc.2⟩

/-- Witness for C4: one batch of training at the fresh engine. -/
theorem claim_C4_witness :
    Engine.train envW argsW coreW = .ok () c1tW evs1tW ∧
    (∃ ls p',
      lossesFrom envW argsW coreW.params 0 envW.trainBatches = .ok (ls, p') ∧
      ls.length = envW.trainBatches.length ∧ envW.trainBatches ≠ [] ∧
      c1tW.train_loss = coreW.train_loss ++ [ls.sum / (ls.length : ℚ)] ∧
      c1tW.cur_epoch = coreW.cur_epoch + 1 ∧ c1tW.val_loss = coreW.val_loss ∧
      c1tW.bestval = coreW.bestval ∧
      evs1tW = Ev.modelTrain :: trainEvs envW.trainBatches) :=
  ⟨train1_eval, claim_C4 envW argsW coreW c1tW () evs1tW train1_eval⟩

/-- Witness for C5: one batch of validation at the fresh engine. -/
theorem claim_C5_witness :
    Engine.validate envW argsW coreW = .ok () c1vW evs1vW ∧
    (∃ ts, iousFrom envW argsW coreW.params 0 envW.valBatches = .ok ts ∧
      ts ≠ [] ∧ ts.length = envW.valBatches.length ∧
      c1vW.val_loss = coreW.val_loss ++
        [(ts.map fun t => t.2.2).sum / (ts.length : ℚ)] ∧
      c1vW.train_loss = coreW.train_loss ∧
      c1vW.cur_epoch = coreW.cur_epoch ∧
      c1vW.params = coreW.params ∧ c1vW.bestval = coreW.bestval ∧
      c1vW.mode = .evalMode ∧
      evs1vW = Ev.modelEval :: Ev.nogradEnter ::
        (valEvs envW.valBatches ++ [Ev.nogradExit])) :=
  ⟨val0_eval, claim_C5 envW argsW coreW c1vW () evs1vW val0_eval⟩

/-- Witness for C6: the written log records `bestval = 1`, the minimum of
`val_loss = [3, 1]`, while the running `self.bestval` is `3`. -/
theorem claim_C6_witness :
    Engine.save envW argsZ c2W = .ok () c2W evs2W ∧
    c2W.bestval = 3 ∧ tblZ.bestval = 1 ∧
    (∃ minv, npMin c2W.val_loss = .ok minv ∧
      (∀ v vs, c2W.val_loss = v :: vs → minv = vs.foldl min v) ∧
      (∀ d f t, Ev.logWrite d f t ∈ evs2W → t.bestval = minv) ∧
      (∃ t, Ev.logWrite argsZ.logdir FName.recentLog t ∈ evs2W ∧
        t.bestval = minv)) := by
  have h2 : Engine.save envW argsZ c2W = .ok () c2W evs2W := by decide
  exact ⟨h2, rfl, rfl, claim_C6 envW argsZ c2W c2W () evs2W h2⟩

/-- Witness for the amended C7: a failing backward pass (train), a failing
`up_sample` (validate), and the failing `recent_optim.pth` write (save),
each at concrete inputs. -/
theorem claim_C7_witness :
    (epochLoop envTF argsW 0 coreW = .ok () coreW [] ∧
      epochStep envTF argsW coreW = .err .runtimeError coreW evsTFW ∧
      epochLoop envTF argsW 1 coreW =
        .err .runtimeError coreW ([] ++ evsTFW)) ∧
    (Engine.train envTF argsW coreW = .err .runtimeError coreW evsTFW ∧
      evsTFW.filter isFileEv = [] ∧ coreW.train_loss = coreW.train_loss ∧
      coreW.val_loss = coreW.val_loss ∧ coreW.bestval = coreW.bestval ∧
      coreW.cur_epoch = coreW.cur_epoch) ∧
    (Engine.validate envVF argsW coreW = .err .runtimeError cVFW evsVFW ∧
      evsVFW.filter isFileEv = [] ∧ cVFW.train_loss = coreW.train_loss ∧
      cVFW.val_loss = coreW.val_loss ∧ cVFW.bestval = coreW.bestval ∧
      cVFW.cur_epoch = coreW.cur_epoch) ∧
    (Engine.save envFS argsLD1 cSV = .err .ioError cSVx evsSV ∧
      cSVx.train_loss = cSV.train_loss ∧ cSVx.val_loss = cSV.val_loss ∧
      cSVx.cur_epoch = cSV.cur_epoch ∧
      (cSVx.bestval = cSV.bestval ∨ pyLast cSV.val_loss = .ok cSVx.bestval) ∧
      ∃ tbl, evsSV.IsPrefix (saveEvsR argsLD1 tbl ++ saveEvsB argsLD1 tbl)) := by
  have hTF : epochStep envTF argsW coreW =
      .err .runtimeError coreW evsTFW := by decide
  have hT : Engine.train envTF argsW coreW =
      .err .runtimeError coreW evsTFW := by decide
  have hV : Engine.validate envVF argsW coreW =
      .err .runtimeError cVFW evsVFW := by decide
  have hS : Engine.save envFS argsLD1 cSV = .err .ioError cSVx evsSV := by
    decide
  refine ⟨⟨rfl, hTF, (claim_C7_amended envTF argsW).1 0 1 coreW coreW coreW
    [] evsTFW .runtimeError (by decide) rfl hTF⟩, ?_, ?_, ?_⟩
  · obtain ⟨a, b, c, d, e⟩ :=
      (claim_C7_amended envTF argsW).2.1 coreW coreW .runtimeError evsTFW hT
    exact ⟨hT, a, b, c, d, e⟩
  · obtain ⟨a, b, c, d, e⟩ :=
      (claim_C7_amended envVF argsW).2.2.1 coreW cVFW .runtimeError evsVFW hV
    exact ⟨hV, a, b, c, d, e⟩
  · obtain ⟨a, b, c, d, e⟩ :=
      (claim_C7_amended envFS argsLD1).2.2.2 cSV cSVx .ioError evsSV hS
    exact ⟨hS, a, b, c, d, e⟩

/-- Witness for C8 at the concrete witness run. -/
theorem claim_C8_witness :
    envW.writeArgs (joinPath (joinPath argsW.logdir argsW.expid) ("args.txt"))
      = .ok () ∧
    (runScript envW argsW coreW = PyResult.addPre
        (setupTrace envW argsW ++
          [.argsDump (joinPath (joinPath argsW.logdir argsW.expid) ("args.txt"))
            { argsW with logdir := joinPath argsW.logdir argsW.expid }])
        (epochLoop envW
          { argsW with logdir := joinPath argsW.logdir argsW.expid }
          argsW.epochs.toNat coreW) ∧
      (setupTrace envW argsW ++
        [Ev.argsDump (joinPath (joinPath argsW.logdir argsW.expid) ("args.txt"))
          { argsW with logdir := joinPath argsW.logdir argsW.expid }]).filter
          isCkptEv = [] ∧
      Ev.adamInit argsW.lr ∈ setupTrace envW argsW ∧
      (envW.dirExists (joinPath argsW.logdir argsW.expid) = false →
        Ev.mkdirEv (joinPath argsW.logdir argsW.expid) ∈
          setupTrace envW argsW)) :=
  ⟨rfl, claim_C8 envW argsW coreW rfl⟩

/-- Witness for C9 at the concrete witness run. -/
theorem claim_C9_witness :
    ((outEvs (runScript envW argsW coreW)).take 4 =
      [.datasetMake (train_set argsW), .loaderMake (dataloader_train argsW),
       .datasetMake (valid_set argsW), .loaderMake (dataloader_val argsW)]) ∧
    (dataloader_val argsW).shuffle = false ∧
    Engine.validate envW argsW coreW = .ok () c1vW evs1vW ∧
    evs1vW = Ev.modelEval :: Ev.nogradEnter ::
      (valEvs envW.valBatches ++ [Ev.nogradExit]) := by
  have hc := claim_C9 (P := Unit) envW argsW
  exact ⟨hc.2.2.2.2.2.2.2.2.1 coreW, hc.2.2.2.2.1, val0_eval,
    hc.2.2.2.2.2.2.2.2.2 coreW c1vW () evs1vW val0_eval⟩

/-- Witness for C10 at the empty-loader environment. -/
theorem claim_C10_witness :
    envE.trainBatches = [] ∧ envE.valBatches = [] ∧
    Engine.train envE argsW coreW =
      .err .zeroDivisionError { coreW with mode := .trainMode }
        [Ev.modelTrain] ∧
    Engine.validate envE argsW coreW =
      .err .attributeError { coreW with mode := .evalMode }
        [Ev.modelEval, Ev.nogradEnter, Ev.nogradExit] :=
  ⟨rfl, rfl, (claim_C10 envE argsW coreW).1 rfl,
    (claim_C10 envE argsW coreW).2 rfl⟩
